import Mathlib

/-!
# kube-state-metrics: label projection, aggregations, generator filtering, store

A shallow embedding of `pkg/metric_aggregation/aggregators.go` and
`pkg/metric_generator/generator.go`, and a model of the metrics store as the
specification describes it (of package `metricsstore` only the tests are
given), followed by the properties proved about them.

Conventions of the embedding:

* Go slices are Lean lists (a nil slice and an empty slice are both `[]`).
* A Go run-time panic is an explicit `Except.error`.
* A Go map is an association list.
* Pointers that are only read (`*metric.Metric`) are modelled by the value they
  point to; nil pointers are not modelled.
* `FamilyGenerator` is a generator struct together with the contents of the map
  it refers to: the view of one call of `filterAggregations`, `Generate` or
  `generateHeader`. `FamilyGeneratorRef` keeps the map reference and the family
  pointer as addresses; `FilterMetricFamilies` and `ComposeMetricGenFuncs`,
  which run several calls that can write to the same object, are defined on it.
-/

set_option autoImplicit false

namespace KubeStateMetrics

/-! ## Data model -/

/-- The run-time panics the embedded code can raise. -/
inductive GoPanic where
  | indexOutOfRange
  | typeAssertion
  deriving DecidableEq, Repr

/-- A Go `float64`, kept as its 64-bit pattern: the embedded code only copies
metric values, it never computes with them. -/
structure Float64 where
  bits : Nat
  deriving DecidableEq, Repr

/-- Modelled from the spec: `metric.Metric` is declared in `pkg/metric`, outside the
given sources. The fields are the ones the sources read: `LabelKeys`,
`LabelValues` and `Value`. -/
structure Metric where
  LabelKeys : List String
  LabelValues : List String
  Value : Float64
  deriving DecidableEq, Repr

/-- Modelled from the spec: `metric.Family` is declared in `pkg/metric`, outside the
given sources. `Name`, `Type` and `Metrics` are the fields the sources use
(`Type` is spelled `Type_`, `metric.Type` is a Go string type); `Help` is the
help string of the spec's data model. -/
structure Family where
  Name : String
  Help : String
  Type_ : String
  Metrics : List Metric
  deriving DecidableEq, Repr

/-- Modelled from the spec: `metric.FamilyInterface.Inspect` is declared in
`pkg/metric`, outside the given sources. Inspecting a family hands the family
to the callback once; the callback's effect is its returned value. -/
def Family.Inspect {β : Type} (f : Family) (inspect : Family → β) : β :=
  inspect f

/-- The part of `metav1.OwnerReference` the sources read. `Controller` is a
`*bool`: `none` is the nil pointer. -/
structure OwnerReference where
  Kind : String
  Name : String
  Controller : Option Bool
  deriving DecidableEq, Repr

/-- The part of the object metadata reachable through `metav1.ObjectMetaAccessor`. -/
structure ObjectMeta where
  Name : String
  Namespace : String
  UID : String
  OwnerReferences : List OwnerReference
  deriving DecidableEq, Repr

/-- A value of type `interface{}` handed to the generators and aggregations:
either its dynamic type implements `metav1.ObjectMetaAccessor`, or it does not. -/
inductive Object where
  | accessor (objectMeta : ObjectMeta)
  | plain (payload : String)
  deriving DecidableEq, Repr

/-- Modelled from the spec: `AggregatedValue` is declared in
`pkg/metric_aggregation`, outside the given sources: a numeric value plus an
ordered sequence of label values. -/
structure AggregatedValue where
  Value : Float64
  LabelValues : List String
  deriving DecidableEq, Repr

/-- Modelled from the spec: `Aggregation` is declared in `pkg/metric_aggregation`,
outside the given sources: the output label names plus the transform
`(object, family) → sequence of AggregatedValue`. -/
structure Aggregation where
  LabelNames : List String
  Aggregate : Object → Family → Except GoPanic (List AggregatedValue)

/-! ## `pkg/metric_aggregation/aggregators.go` -/

/-- The first loop of `GetLabelsByName`: `for i, label := range m.LabelKeys`.
The remaining keys are the list argument, `i` is the index of its head. -/
def GetLabelsByName.scan (names LabelValues : List String) :
    List String → Nat → Nat → List String → Except GoPanic (List String)
  | [], _, _, metricLabels => .ok metricLabels
  | label :: rest, i, nameIndex, metricLabels =>
    match names[nameIndex]? with
    | none => .error .indexOutOfRange
    | some name =>
      if label = name then
        match LabelValues[i]? with
        | none => .error .indexOutOfRange
        | some v =>
          if nameIndex + 1 ≥ names.length then .ok (metricLabels ++ [v])
          else GetLabelsByName.scan names LabelValues rest (i + 1) (nameIndex + 1)
            (metricLabels ++ [v])
      else GetLabelsByName.scan names LabelValues rest (i + 1) nameIndex metricLabels

/-- The second loop of `GetLabelsByName`:
`for len(metricLabels) < len(names) { append "<none>" }`, run for the
`len(names) - len(metricLabels)` iterations it takes. -/
def GetLabelsByName.pad : Nat → List String → List String
  | 0, metricLabels => metricLabels
  | k + 1, metricLabels => GetLabelsByName.pad k (metricLabels ++ ["<none>"])

/-- `GetLabelsByName(m, names...)`. -/
def GetLabelsByName (m : Metric) (names : List String) : Except GoPanic (List String) :=
  if names.length = 0 then .ok []
  else
    match GetLabelsByName.scan names m.LabelValues m.LabelKeys 0 0 [] with
    | .error e => .error e
    | .ok metricLabels =>
      .ok (GetLabelsByName.pad (names.length - metricLabels.length) metricLabels)

/-- The loop `for _, m := range f.Metrics` of `ByLabels`. -/
def ByLabels.loop (names : List String) :
    List Metric → List AggregatedValue → Except GoPanic (List AggregatedValue)
  | [], aggregated => .ok aggregated
  | m :: rest, aggregated =>
    match GetLabelsByName m names with
    | .error e => .error e
    | .ok labelValues =>
      ByLabels.loop names rest (aggregated ++ [{ Value := m.Value, LabelValues := labelValues }])

/-- `ByLabels(names...)`. -/
def ByLabels (names : List String) : Aggregation where
  LabelNames := names
  Aggregate := fun _obj f => f.Inspect (fun f => ByLabels.loop names f.Metrics [])

/-- `strconv.FormatBool`. -/
def FormatBool (b : Bool) : String :=
  if b then "true" else "false"

/-- The loop `for i, owner := range owners` of `ByNamespaceAndOwner`, filling
`labelSets[i]`. -/
def ByNamespaceAndOwner.ownerSets (ns : String) : List OwnerReference → List (List String)
  | [] => []
  | owner :: rest =>
    (match owner.Controller with
      | some c => [ns, owner.Kind, owner.Name, FormatBool c]
      | none => [ns, owner.Kind, owner.Name, "false"])
      :: ByNamespaceAndOwner.ownerSets ns rest

/-- The value of `labelSets` before the metrics are visited. -/
def ByNamespaceAndOwner.labelSets (ns : String) (owners : List OwnerReference) :
    List (List String) :=
  if owners.length = 0 then [[ns, "<none>", "<none>", "<none>"]]
  else ByNamespaceAndOwner.ownerSets ns owners

/-- The inner loop `for _, s := range labelSets` of `ByNamespaceAndOwner`. Every
label set is a slice of length and capacity 4, so `append(s, ...)` copies it
whenever it adds a value: the rows share no storage that is written later. -/
def ByNamespaceAndOwner.inner (labels : List String) (m : Metric) :
    List (List String) → List AggregatedValue → Except GoPanic (List AggregatedValue)
  | [], aggregated => .ok aggregated
  | s :: rest, aggregated =>
    match GetLabelsByName m labels with
    | .error e => .error e
    | .ok projected =>
      ByNamespaceAndOwner.inner labels m rest
        (aggregated ++ [{ Value := m.Value, LabelValues := s ++ projected }])

/-- The outer loop `for _, m := range f.Metrics` of `ByNamespaceAndOwner`. -/
def ByNamespaceAndOwner.outer (labels : List String) (labelSets : List (List String)) :
    List Metric → List AggregatedValue → Except GoPanic (List AggregatedValue)
  | [], aggregated => .ok aggregated
  | m :: rest, aggregated =>
    match ByNamespaceAndOwner.inner labels m labelSets aggregated with
    | .error e => .error e
    | .ok aggregated1 => ByNamespaceAndOwner.outer labels labelSets rest aggregated1

/-- `ByNamespaceAndOwner(labels...)`. The unchecked type assertion
`obj.(metav1.ObjectMetaAccessor)` panics on an object without the accessor. -/
def ByNamespaceAndOwner (labels : List String) : Aggregation where
  LabelNames := ["namespace", "owner_kind", "owner_name", "owner_is_controller"] ++ labels
  Aggregate := fun obj f =>
    match obj with
    | .plain _ => .error .typeAssertion
    | .accessor objectMeta =>
      let ns := objectMeta.Namespace
      let labelSets := ByNamespaceAndOwner.labelSets ns objectMeta.OwnerReferences
      f.Inspect (fun f => ByNamespaceAndOwner.outer labels labelSets f.Metrics [])

/-! ## `pkg/metric_generator/generator.go` -/

/-- The policy interface `whiteBlackLister`. -/
structure whiteBlackLister where
  IsIncluded : String → Bool
  IsExcluded : String → Bool

/-- Assignment `m[k] = v` on a Go map kept as an association list: the entry
of an existing key is overwritten, a new key is added. -/
def GoMap.set {V : Type} : List (String × V) → String → V → List (String × V)
  | [], k, v => [(k, v)]
  | (k1, v1) :: rest, k, v =>
    if k1 = k then (k, v) :: rest else (k1, v1) :: GoMap.set rest k v

/-- The builtin `delete(m, k)` on a Go map kept as an association list. -/
def GoMap.delete {V : Type} (m : List (String × V)) (k : String) : List (String × V) :=
  m.filter (fun e => decide (e.1 ≠ k))

/-- The builtin `len(m)` on a possibly nil Go map. -/
def GoMap.len {V : Type} : Option (List (String × V)) → Nat
  | none => 0
  | some m => m.length

/-- `FamilyGenerator`. `AggregateBy` is `none` for the nil map and `some m` for
an allocated map with entries `m`. -/
structure FamilyGenerator where
  Name : String
  Help : String
  Type_ : String
  GenerateFunc : Object → Family
  AggregateBy : Option (List (String × Aggregation))
  AggregationsOnly : Bool

/-- `FamilyGenerator.Generate`. -/
def FamilyGenerator.Generate (g : FamilyGenerator) (obj : Object) : Family :=
  let family := g.GenerateFunc obj
  let family := { family with Name := g.Name }
  let family := { family with Type_ := g.Type_ }
  family

/-- `FamilyGenerator.aggregatedMetricNames`. `AggregatedMetricNameSuffix` is
declared in `pkg/metric_aggregation` outside the given sources and is taken as
a parameter. -/
def FamilyGenerator.aggregatedMetricNames (AggregatedMetricNameSuffix : String → String)
    (g : FamilyGenerator) : Option (List (String × String)) :=
  match g.AggregateBy with
  | none => none
  | some aggregateBy =>
    some (aggregateBy.foldl
      (fun names e => GoMap.set names e.1 (g.Name ++ AggregatedMetricNameSuffix e.1)) [])

/-- The loop `for aggName, metricName := range g.aggregatedMetricNames()` of
`filterAggregations`; ranging over a nil map runs no iteration, and `delete` on
a nil map does nothing. -/
def FamilyGenerator.filterAggregations.prune (l : whiteBlackLister) :
    Option (List (String × String)) → FamilyGenerator → FamilyGenerator
  | none, g => g
  | some names, g =>
    names.foldl
      (fun g e =>
        if l.IsExcluded e.2 then
          { g with AggregateBy := g.AggregateBy.map (fun m => GoMap.delete m e.1) }
        else g)
      g

/-- `FamilyGenerator.filterAggregations`: the generator after the call, and
the returned boolean. -/
def FamilyGenerator.filterAggregations (AggregatedMetricNameSuffix : String → String)
    (l : whiteBlackLister) (g : FamilyGenerator) : FamilyGenerator × Bool :=
  let g1 := if l.IsExcluded g.Name then { g with AggregationsOnly := true } else g
  let g2 := FamilyGenerator.filterAggregations.prune l
    (g1.aggregatedMetricNames AggregatedMetricNameSuffix) g1
  let g3 := if GoMap.len g2.AggregateBy = 0 then { g2 with AggregateBy := none } else g2
  (g3, !g3.AggregationsOnly || g3.AggregateBy.isSome)

/-- The indexed assignment `s[i] = x` on a Go slice: it panics when `i` is not
below `len(s)`. -/
def GoSlice.assign {α : Type} : List α → Nat → α → Except GoPanic (List α)
  | [], _, _ => .error .indexOutOfRange
  | _ :: rest, 0, x => .ok (x :: rest)
  | a :: rest, i + 1, x =>
    match GoSlice.assign rest i x with
    | .error e => .error e
    | .ok rest1 => .ok (a :: rest1)

/-- `FamilyGenerator.generateHeader`: the writes to the `strings.Builder`, in order. -/
def FamilyGenerator.generateHeader (g : FamilyGenerator) : String :=
  let header := ""
  let header := header ++ "# HELP "
  let header := header ++ g.Name
  let header := header.push ' '
  let header := header ++ g.Help
  let header := header.push '\n'
  let header := header ++ "# TYPE "
  let header := header ++ g.Name
  let header := header.push ' '
  let header := header ++ g.Type_
  header

/-- The loop `for i, f := range families` of `ExtractMetricFamilyHeaders`; the
remaining generators are the list argument, `i` is the index of its head. -/
def ExtractMetricFamilyHeaders.loop :
    List FamilyGenerator → Nat → List String → Except GoPanic (List String)
  | [], _, headers => .ok headers
  | f :: rest, i, headers =>
    match GoSlice.assign headers i f.generateHeader with
    | .error e => .error e
    | .ok headers1 => ExtractMetricFamilyHeaders.loop rest (i + 1) headers1

/-- `ExtractMetricFamilyHeaders`: `make([]string, len(families))` holds empty
strings before the loop fills it. -/
def ExtractMetricFamilyHeaders (families : List FamilyGenerator) :
    Except GoPanic (List String) :=
  ExtractMetricFamilyHeaders.loop families 0 (List.replicate families.length "")

/-! ## `generator.go`, with the references kept

`FilterMetricFamilies` calls `filterAggregations` on one generator after the
other, and the function `ComposeMetricGenFuncs` returns calls `Generate` on one
generator after the other: what one call writes through a reference is seen by
the next. The definitions below keep the map reference and the family pointer
as addresses into the objects they point to. -/

/-- The objects of one kind that Go keeps behind references, by address. -/
abbrev GoHeap (α : Type) := Nat → α

/-- A write through a reference: the object at address `a` becomes `x`, every
other object stays. -/
def GoHeap.write {α : Type} (heap : GoHeap α) (a : Nat) (x : α) : GoHeap α :=
  fun b => if b = a then x else heap b

/-- A `FamilyGenerator` struct value with its references kept as references:
`AggregateBy` is nil (`none`) or the address of a map object, which struct
copies share; `GenerateFunc` returns the address of the `*metric.Family` it
hands out, together with the family that object holds on return. -/
structure FamilyGeneratorRef where
  Name : String
  Help : String
  Type_ : String
  GenerateFunc : Object → Nat × Family
  AggregateBy : Option Nat
  AggregationsOnly : Bool

/-- The struct value with the contents its references point to: what one call on
the generator sees. -/
def FamilyGeneratorRef.deref (maps : GoHeap (List (String × Aggregation)))
    (g : FamilyGeneratorRef) : FamilyGenerator :=
  { Name := g.Name, Help := g.Help, Type_ := g.Type_,
    GenerateFunc := fun obj => (g.GenerateFunc obj).2,
    AggregateBy := g.AggregateBy.map maps,
    AggregationsOnly := g.AggregationsOnly }

/-- `FamilyGenerator.aggregatedMetricNames` on a struct whose map is read through
its reference. -/
def FamilyGeneratorRef.aggregatedMetricNames (AggregatedMetricNameSuffix : String → String)
    (maps : GoHeap (List (String × Aggregation))) (g : FamilyGeneratorRef) :
    Option (List (String × String)) :=
  match g.AggregateBy with
  | none => none
  | some a =>
    some ((maps a).foldl
      (fun names e => GoMap.set names e.1 (g.Name ++ AggregatedMetricNameSuffix e.1)) [])

/-- The statement `delete(g.AggregateBy, aggName)`: it changes the map object the
reference points to, and nothing when the reference is nil. -/
def FamilyGeneratorRef.deleteAggregation (maps : GoHeap (List (String × Aggregation)))
    (g : FamilyGeneratorRef) (aggName : String) : GoHeap (List (String × Aggregation)) :=
  match g.AggregateBy with
  | none => maps
  | some a => maps.write a (GoMap.delete (maps a) aggName)

/-- The loop `for aggName, metricName := range g.aggregatedMetricNames()` of
`filterAggregations`, on the map objects. -/
def FamilyGeneratorRef.filterAggregations.prune (l : whiteBlackLister) (g : FamilyGeneratorRef) :
    Option (List (String × String)) → GoHeap (List (String × Aggregation)) →
      GoHeap (List (String × Aggregation))
  | none, maps => maps
  | some names, maps =>
    names.foldl
      (fun maps e => if l.IsExcluded e.2 then g.deleteAggregation maps e.1 else maps)
      maps

/-- `FamilyGenerator.filterAggregations` with the map behind its reference: the
map objects after the call, the struct after the call, and the returned
boolean. The deletions happen in the shared map object; `g.AggregateBy = nil`
changes the struct only. -/
def FamilyGeneratorRef.filterAggregations (AggregatedMetricNameSuffix : String → String)
    (l : whiteBlackLister) (maps : GoHeap (List (String × Aggregation)))
    (g : FamilyGeneratorRef) :
    GoHeap (List (String × Aggregation)) × FamilyGeneratorRef × Bool :=
  let g1 := if l.IsExcluded g.Name then { g with AggregationsOnly := true } else g
  let maps1 := FamilyGeneratorRef.filterAggregations.prune l g1
    (g1.aggregatedMetricNames AggregatedMetricNameSuffix maps) maps
  let g3 := if GoMap.len (g1.AggregateBy.map maps1) = 0 then { g1 with AggregateBy := none }
    else g1
  (maps1, g3, !g3.AggregationsOnly || g3.AggregateBy.isSome)

/-- `FilterMetricFamilies`: the loop variable `f` is a copy of the struct, so the
call changes the copy that is appended, and, through the copy's reference, the
map object the caller's structs still point to. Returns the map objects after
the call and the filtered slice. -/
def FilterMetricFamilies (AggregatedMetricNameSuffix : String → String)
    (l : whiteBlackLister) (maps : GoHeap (List (String × Aggregation)))
    (families : List FamilyGeneratorRef) :
    GoHeap (List (String × Aggregation)) × List FamilyGeneratorRef :=
  families.foldl
    (fun state f =>
      let r := f.filterAggregations AggregatedMetricNameSuffix l state.1
      if r.2.2 then (r.1, state.2 ++ [r.2.1]) else (r.1, state.2))
    (maps, [])

/-- `FamilyGenerator.Generate` on the family object behind the returned pointer:
after `family := g.GenerateFunc(obj)` the object at the returned address holds
the transform's family; the name and the type are then written into that
object, and the pointer is returned. -/
def FamilyGeneratorRef.Generate (g : FamilyGeneratorRef) (families : GoHeap (Option Family))
    (obj : Object) : GoHeap (Option Family) × Nat :=
  let r := g.GenerateFunc obj
  let families := families.write r.1 (some r.2)
  let families := families.write r.1
    ((families r.1).map (fun family => { family with Name := g.Name }))
  let families := families.write r.1
    ((families r.1).map (fun family => { family with Type_ := g.Type_ }))
  (families, r.1)

/-- The loop `for i, gen := range familyGens` inside the function
`ComposeMetricGenFuncs` returns. An entry of the slice is `none` for the nil
interface and `some a` for the pointer to the family object at address `a`. -/
def ComposeMetricGenFuncs.loop (obj : Object) :
    List FamilyGeneratorRef → Nat → GoHeap (Option Family) → List (Option Nat) →
      Except GoPanic (GoHeap (Option Family) × List (Option Nat))
  | [], _, heap, families => .ok (heap, families)
  | gen :: rest, i, heap, families =>
    let r := gen.Generate heap obj
    match GoSlice.assign families i (some r.2) with
    | .error e => .error e
    | .ok families1 => ComposeMetricGenFuncs.loop obj rest (i + 1) r.1 families1

/-- `ComposeMetricGenFuncs`: the returned function, giving the family objects
after the call and the slice of pointers;
`make([]metric.FamilyInterface, len(familyGens))` holds nil interfaces before
the loop fills it. -/
def ComposeMetricGenFuncs (familyGens : List FamilyGeneratorRef) :
    Object → Except GoPanic (GoHeap (Option Family) × List (Option Nat)) :=
  fun obj =>
    ComposeMetricGenFuncs.loop obj familyGens 0 (fun _ => none)
      (List.replicate familyGens.length none)

/-! ## The metrics store, modelled from the spec (sections 4.4, 6 and 7) -/

/-- Modelled from the spec: the error kinds of the store (spec section 7); the store
code is outside the given sources. -/
inductive StoreError where
  | MalformedMetric
  | MissingCapability
  | UnknownIdentity
  | SinkFailure
  deriving DecidableEq, Repr

/-- Modelled from the spec: `AggregationSet` (declared in `pkg/metric_aggregation`,
outside the given sources) binds a named collection of aggregations to one
shared output identity: name, help and type. -/
structure AggregationSet where
  Aggregations : List (String × Aggregation)
  Name : String
  Help : String
  Type_ : String

/-- Modelled from the spec: `NewAggregationSet(aggregations, name, help, type)`, as
the tests call it. -/
def NewAggregationSet (aggregations : List (String × Aggregation)) (name help type : String) :
    AggregationSet :=
  { Aggregations := aggregations, Name := name, Help := help, Type_ := type }

/-- Modelled from the spec: one item of the text exposition (spec section 6): a
header block, or a metric line `<name>{k1="v1",k2="v2",...} <value>` kept as its
name, its label pairs in order and its value. -/
inductive ExpositionLine where
  | header (text : String)
  | sample (name : String) (labels : List (String × String)) (value : Float64)
  deriving DecidableEq, Repr

/-- Modelled from the spec: what the store holds for one object identity: the
metric lines rendered per generator at `Add` time, and the aggregated rows the
object contributed, each tagged with its generator index and aggregation name. -/
structure StoreEntry where
  raw : List (List ExpositionLine)
  aggregated : List (Nat × String × AggregatedValue)
  deriving DecidableEq, Repr

/-- Modelled from the spec: `MetricsStore` (package `metricsstore`, of which only the
tests are given): the per-generator headers, the composed generation
transform, the per-generator aggregated-only flags, the aggregation sets keyed
by generator index, and the entries keyed by object identity. -/
structure MetricsStore where
  headers : List String
  generateFunc : Object → Except StoreError (List Family)
  aggregatedOnly : List Bool
  aggregations : List (Nat × AggregationSet)
  metrics : List (String × StoreEntry)

/-- Modelled from the spec: `NewMetricsStore(headers, generateFunc, aggregatedOnly,
aggregations, _)`, as the tests call it: a store without entries. The trailing
numeric parameter has no effect the spec describes and is left out. -/
def NewMetricsStore (headers : List String)
    (generateFunc : Object → Except StoreError (List Family))
    (aggregatedOnly : List Bool) (aggregations : List (Nat × AggregationSet)) : MetricsStore :=
  { headers := headers, generateFunc := generateFunc, aggregatedOnly := aggregatedOnly,
    aggregations := aggregations, metrics := [] }

/-- Modelled from the spec: the structural validation of `Add`: every metric has as
many label values as label keys. -/
def MetricsStore.wellFormed (families : List Family) : Bool :=
  families.all (fun fam => fam.Metrics.all (fun m => m.LabelKeys.length == m.LabelValues.length))

/-- Modelled from the spec: the rendering `Add` stores for an object: per generator
one metric line per metric of its family, and the rows of every attached
aggregation applied to the object and that generator's family. An aggregation
that fails on the object contributes no row (`MissingCapability` is fatal only
to that aggregation's contribution). -/
def MetricsStore.render (s : MetricsStore) (obj : Object) (families : List Family) :
    StoreEntry :=
  { raw := families.map (fun fam =>
      fam.Metrics.map (fun m =>
        ExpositionLine.sample fam.Name (m.LabelKeys.zip m.LabelValues) m.Value)),
    aggregated := s.aggregations.flatMap (fun p =>
      match families[p.1]? with
      | none => []
      | some fam =>
        p.2.Aggregations.flatMap (fun a =>
          match a.2.Aggregate obj fam with
          | .ok rows => rows.map (fun r => (p.1, a.1, r))
          | .error _ => [])) }

/-- Modelled from the spec: `Add(identity, object)`: run the generation transform,
validate the metrics, render and store the result under `identity`; on a failed
generation or validation the store is not changed. -/
def MetricsStore.Add (s : MetricsStore) (identity : String) (obj : Object) :
    Except StoreError MetricsStore :=
  match s.generateFunc obj with
  | .error e => .error e
  | .ok families =>
    if MetricsStore.wellFormed families then
      .ok { s with metrics := GoMap.set s.metrics identity (s.render obj families) }
    else .error .MalformedMetric

/-- Modelled from the spec: `Add` of a sequence of objects, in order, stopping at the
first failure. -/
def MetricsStore.AddAll : MetricsStore → List (String × Object) → Except StoreError MetricsStore
  | s, [] => .ok s
  | s, p :: rest =>
    match s.Add p.1 p.2 with
    | .error e => .error e
    | .ok s1 => MetricsStore.AddAll s1 rest

/-- Modelled from the spec: the lines `WriteAll` emits for the aggregation `a` of
the set `set` attached to generator `i`: its own header, then the rows gathered
from every stored object, under the derived name
`set name + AggregatedMetricNameSuffix(aggregation name)` and the aggregation's
label names. -/
def MetricsStore.aggregatedLines (AggregatedMetricNameSuffix : String → String)
    (s : MetricsStore) (i : Nat) (set : AggregationSet) (a : String × Aggregation) :
    List ExpositionLine :=
  [ExpositionLine.header
      ("# HELP " ++ (set.Name ++ AggregatedMetricNameSuffix a.1) ++ " " ++ set.Help ++ "\n"
        ++ "# TYPE " ++ (set.Name ++ AggregatedMetricNameSuffix a.1) ++ " " ++ set.Type_)]
    ++ s.metrics.flatMap (fun e =>
        (e.2.aggregated.filter (fun t => t.1 == i && t.2.1 == a.1)).map (fun t =>
          ExpositionLine.sample (set.Name ++ AggregatedMetricNameSuffix a.1)
            (a.2.LabelNames.zip t.2.2.LabelValues) t.2.2.Value))

/-- Modelled from the spec: the lines `WriteAll` emits for generator `i`: its header,
then (unless the generator is aggregated-only) the metric lines of every stored
object, then the lines of every attached aggregation. -/
def MetricsStore.generatorLines (AggregatedMetricNameSuffix : String → String)
    (s : MetricsStore) (i : Nat) : List ExpositionLine :=
  [ExpositionLine.header (s.headers.getD i "")]
    ++ (if s.aggregatedOnly.getD i false then []
        else s.metrics.flatMap (fun e => e.2.raw.getD i []))
    ++ (s.aggregations.filter (fun p => p.1 == i)).flatMap (fun p =>
        p.2.Aggregations.flatMap (fun a =>
          MetricsStore.aggregatedLines AggregatedMetricNameSuffix s i p.2 a))

/-- Modelled from the spec: `WriteAll`: the full snapshot, generator by generator in
generator order, as the sequence of lines written to the sink. -/
def MetricsStore.WriteAll (AggregatedMetricNameSuffix : String → String) (s : MetricsStore) :
    List ExpositionLine :=
  (List.range s.headers.length).flatMap (fun i =>
    MetricsStore.generatorLines AggregatedMetricNameSuffix s i)

/-! ## Definitions used to state the properties -/

/-- The values collected by one left-to-right pass over paired keys and values
that consumes the requested names greedily. -/
def matched : List String → List String → List String → List String
  | k :: ks, v :: vs, n :: ns =>
    if k = n then v :: matched ks vs ns else matched ks vs (n :: ns)
  | _, _, _ => []

/-- The aggregations attached to a generator: none for a nil map. -/
def FamilyGenerator.attached (g : FamilyGenerator) : List (String × Aggregation) :=
  match g.AggregateBy with
  | none => []
  | some m => m

/-- The output name of the aggregation `aggName` of generator `g`:
generator name + `AggregatedMetricNameSuffix(aggName)`. -/
def FamilyGenerator.derivedName (AggregatedMetricNameSuffix : String → String)
    (g : FamilyGenerator) (aggName : String) : String :=
  g.Name ++ AggregatedMetricNameSuffix aggName

/-- The survival condition in the spec's words: the raw name is included (not
excluded), or some attached aggregation's derived name is included. -/
def FamilyGenerator.survives (AggregatedMetricNameSuffix : String → String)
    (l : whiteBlackLister) (g : FamilyGenerator) : Bool :=
  !l.IsExcluded g.Name ||
    g.attached.any (fun e => !l.IsExcluded (g.derivedName AggregatedMetricNameSuffix e.1))

/-- The aggregations of `g` whose derived name the policy does not exclude, in
their attached order. -/
def FamilyGenerator.kept (AggregatedMetricNameSuffix : String → String) (l : whiteBlackLister)
    (g : FamilyGenerator) : List (String × Aggregation) :=
  g.attached.filter (fun e => !l.IsExcluded (g.derivedName AggregatedMetricNameSuffix e.1))

/-- The value `GetLabelsByName` computes on a metric that has a label value for
every label key: the greedily matched values, then `"<none>"` up to
`len(names)`. -/
def projected (m : Metric) (names : List String) : List String :=
  matched m.LabelKeys m.LabelValues names
    ++ List.replicate (names.length - (matched m.LabelKeys m.LabelValues names).length) "<none>"

/-! ## Example inputs, after `metrics_store_test.go` -/

/-- The metric `TestAggregations` generates for service `a` of type `ClusterIP`;
the value is `float64(1)`. -/
def exampleMetric : Metric :=
  { LabelKeys := ["uid", "type"], LabelValues := ["aClusterIP", "ClusterIP"],
    Value := ⟨4607182418800017408⟩ }

/-- A second metric of the same shape, for a `NodePort` service. -/
def exampleMetric2 : Metric :=
  { LabelKeys := ["uid", "type"], LabelValues := ["aNodePort", "NodePort"],
    Value := ⟨4607182418800017408⟩ }

/-- A metric that breaks the data-model invariant: one label key, no label value. -/
def malformedMetric : Metric :=
  { LabelKeys := ["type"], LabelValues := [], Value := ⟨4607182418800017408⟩ }

/-- A family of two well-formed metrics. -/
def exampleFamily : Family :=
  { Name := "kube_service_info", Help := "Information about service.", Type_ := "gauge",
    Metrics := [exampleMetric, exampleMetric2] }

/-- A family holding the malformed metric. -/
def malformedFamily : Family :=
  { Name := "kube_service_info", Help := "Information about service.", Type_ := "gauge",
    Metrics := [malformedMetric] }

/-- The metadata of a service without owner references. -/
def exampleService : ObjectMeta :=
  { Name := "service", Namespace := "a", UID := "aClusterIP", OwnerReferences := [] }

/-- The metadata of an object with two owner references: a controller, and an
owner whose controller flag is unset. -/
def exampleOwned : ObjectMeta :=
  { Name := "pod", Namespace := "a", UID := "p1",
    OwnerReferences :=
      [{ Kind := "ReplicaSet", Name := "rs", Controller := some true },
       { Kind := "Job", Name := "job", Controller := none }] }

/-- A suffix function to run the examples with: `_by_` and the aggregation name. -/
def exampleSuffix (name : String) : String := "_by_" ++ name

/-- The generation transform of `TestObjectsSameNameDifferentNamespaces`: one
family with one metric, labelled with the object's UID. -/
def testInfoGenFunc (obj : Object) : Except StoreError (List Family) :=
  match obj with
  | .plain _ => .error .MissingCapability
  | .accessor objectMeta =>
    .ok [{ Name := "kube_service_info", Help := "", Type_ := "",
           Metrics := [{ LabelKeys := ["uid"], LabelValues := [objectMeta.UID],
                         Value := ⟨4607182418800017408⟩ }] }]

/-- A generation transform shaped like the one of `TestAggregations`: one family
with one metric with the label keys `uid` and `type`; the type value is read
from the object's name. -/
def testTypedGenFunc (obj : Object) : Except StoreError (List Family) :=
  match obj with
  | .plain _ => .error .MissingCapability
  | .accessor objectMeta =>
    .ok [{ Name := "kube_service_info", Help := "", Type_ := "",
           Metrics := [{ LabelKeys := ["uid", "type"],
                         LabelValues := [objectMeta.UID, objectMeta.Name],
                         Value := ⟨4607182418800017408⟩ }] }]

/-- The services of `TestObjectsSameNameDifferentNamespaces`: name `service`,
namespace and UID `id`. -/
def testService (id : String) : Object :=
  .accessor { Name := "service", Namespace := id, UID := id, OwnerReferences := [] }

/-- An object for `testTypedGenFunc`: namespace `id`, UID `id` followed by the type. -/
def testTypedService (id svcType : String) : Object :=
  .accessor { Name := svcType, Namespace := id, UID := id ++ svcType, OwnerReferences := [] }

/-- The store of `TestObjectsSameNameDifferentNamespaces`, before the objects are added. -/
def testStore : MetricsStore :=
  NewMetricsStore ["Information about service."] testInfoGenFunc [false] []

/-- One map object, at address 0, holding the aggregation `type`. -/
def sharedMaps : GoHeap (List (String × Aggregation)) :=
  fun a => if a = 0 then [("type", ByLabels ["type"])] else []

/-- A generator named `x` whose `AggregateBy` is the map object at address 0 and
whose transform hands out the family object at address 0. -/
def generatorX : FamilyGeneratorRef :=
  { Name := "x", Help := "", Type_ := "gauge",
    GenerateFunc := fun _ => (0, { Name := "", Help := "", Type_ := "", Metrics := [] }),
    AggregateBy := some 0, AggregationsOnly := false }

/-- A generator named `y` that shares both with `x`: the same map object, the same
family object. -/
def generatorY : FamilyGeneratorRef :=
  { Name := "y", Help := "", Type_ := "counter",
    GenerateFunc := fun _ => (0, { Name := "", Help := "", Type_ := "", Metrics := [] }),
    AggregateBy := some 0, AggregationsOnly := false }

/-- A policy that excludes the derived name `x_by_type` and the raw name `y`. -/
def sharingPolicy : whiteBlackLister :=
  { IsIncluded := fun name => !(name == "x_by_type" || name == "y")
    IsExcluded := fun name => name == "x_by_type" || name == "y" }

/-- A generator named `z` with a map object and a family object of its own, at
address 1. -/
def generatorZ : FamilyGeneratorRef :=
  { Name := "z", Help := "", Type_ := "counter",
    GenerateFunc := fun _ => (1, { Name := "", Help := "", Type_ := "", Metrics := [] }),
    AggregateBy := some 1, AggregationsOnly := false }

/-! ## Label projection -/

/-- With no name left to match, nothing is collected. -/
theorem matched_names_nil (ks vs : List String) : matched ks vs [] = [] := by
  cases ks <;> cases vs <;> simp [matched]

/-- With no key left to scan, nothing is collected. -/
theorem matched_keys_nil (vs ns : List String) : matched [] vs ns = [] := by
  simp [matched]

/-- The pass collects at most one value per requested name. -/
theorem matched_length_le (ks vs ns : List String) :
    (matched ks vs ns).length ≤ ns.length := by
  induction ks generalizing vs ns with
  | nil => simp [matched]
  | cons k ks ih =>
    cases vs with
    | nil => simp [matched]
    | cons v vs =>
      cases ns with
      | nil => simp [matched]
      | cons n ns =>
        simp only [matched]
        split
        · simpa using ih vs ns
        · exact ih vs (n :: ns)

/-- The padding loop appends `k` copies of the sentinel. -/
theorem pad_eq (k : Nat) (acc : List String) :
    GetLabelsByName.pad k acc = acc ++ List.replicate k "<none>" := by
  induction k generalizing acc with
  | zero => simp [GetLabelsByName.pad]
  | succ k ih => simp [GetLabelsByName.pad, ih, List.replicate_succ]

/-- The scanning loop does not panic when every remaining key has a value, and
then appends the greedily matched values to the labels collected so far. -/
theorem scan_eq (names vals : List String) (keys : List String) (i nameIndex : Nat)
    (acc : List String) (hn : nameIndex < names.length)
    (hi : i + keys.length ≤ vals.length) :
    GetLabelsByName.scan names vals keys i nameIndex acc
      = .ok (acc ++ matched keys (vals.drop i) (names.drop nameIndex)) := by
  induction keys generalizing i nameIndex acc with
  | nil => simp [GetLabelsByName.scan, matched]
  | cons k ks ih =>
    have hi' : i < vals.length := by simp at hi; omega
    have hi2 : (i + 1) + ks.length ≤ vals.length := by simp at hi; omega
    rw [List.drop_eq_getElem_cons hi', List.drop_eq_getElem_cons hn]
    simp only [GetLabelsByName.scan, List.getElem?_eq_getElem hn, matched]
    by_cases hk : k = names[nameIndex]
    · simp only [hk, if_true, List.getElem?_eq_getElem hi']
      by_cases hlast : nameIndex + 1 ≥ names.length
      · have : List.drop (nameIndex + 1) names = [] := List.drop_of_length_le hlast
        simp [hlast, this, matched_names_nil]
      · have hn2 : nameIndex + 1 < names.length := by omega
        rw [if_neg hlast, ih (i + 1) (nameIndex + 1) _ hn2 hi2]
        simp
    · rw [if_neg hk, if_neg hk, ih (i + 1) nameIndex _ hn hi2,
        List.drop_eq_getElem_cons hn]

/-- On a metric with a value for every key, `GetLabelsByName` returns the matched
values padded with the sentinel. -/
theorem GetLabelsByName_eq (m : Metric) (names : List String)
    (h : m.LabelKeys.length ≤ m.LabelValues.length) :
    GetLabelsByName m names
      = .ok (matched m.LabelKeys m.LabelValues names
          ++ List.replicate (names.length - (matched m.LabelKeys m.LabelValues names).length)
              "<none>") := by
  unfold GetLabelsByName
  by_cases h0 : names.length = 0
  · have : names = [] := List.length_eq_zero.mp h0
    subst this
    simp [matched_names_nil]
  · rw [if_neg h0, scan_eq names m.LabelValues m.LabelKeys 0 0 [] (by omega) (by simpa using h)]
    simp [pad_eq]

/-- When the names are a subsequence of the keys, every name is matched, with the
value stored at a position of that key. -/
theorem matched_sublist (ks vs ns : List String) (hlen : ks.length = vs.length)
    (hsub : ns.Sublist ks) :
    (matched ks vs ns).length = ns.length ∧
    ∀ (j : Nat) (name : String), ns[j]? = some name →
      ∃ (i : Nat) (v : String),
        ks[i]? = some name ∧ vs[i]? = some v ∧ (matched ks vs ns)[j]? = some v := by
  induction ks generalizing vs ns with
  | nil =>
    have : ns = [] := List.sublist_nil.mp hsub
    subst this
    simp [matched]
  | cons k ks ih =>
    cases vs with
    | nil => simp at hlen
    | cons v vs =>
      have hlen' : ks.length = vs.length := by simpa using hlen
      cases ns with
      | nil => simp [matched]
      | cons n ns =>
        simp only [matched]
        by_cases hk : k = n
        · subst hk
          have hsub' : ns.Sublist ks := List.cons_sublist_cons.mp hsub
          obtain ⟨h1, h2⟩ := ih vs ns hlen' hsub'
          rw [if_pos rfl]
          refine ⟨by simp [h1], ?_⟩
          intro j name hj
          cases j with
          | zero =>
            simp at hj
            exact ⟨0, v, by simp [hj], by simp, by simp⟩
          | succ j =>
            simp at hj
            obtain ⟨i, w, hi1, hi2, hi3⟩ := h2 j name hj
            exact ⟨i + 1, w, by simpa using hi1, by simpa using hi2, by simpa using hi3⟩
        · have hsub' : (n :: ns).Sublist ks := by
            cases hsub with
            | cons _ h => exact h
            | cons₂ _ h => exact absurd rfl hk
          obtain ⟨h1, h2⟩ := ih vs (n :: ns) hlen' hsub'
          rw [if_neg hk]
          refine ⟨h1, ?_⟩
          intro j name hj
          obtain ⟨i, w, hi1, hi2, hi3⟩ := h2 j name hj
          exact ⟨i + 1, w, by simpa using hi1, by simpa using hi2, hi3⟩

/-- In a list without duplicates an element sits at one position only. -/
theorem getElem_opt_unique_of_nodup (ks : List String) (hnd : ks.Nodup) (i i' : Nat) (name : String)
    (h1 : ks[i]? = some name) (h2 : ks[i']? = some name) : i' = i := by
  have hi : i < ks.length := by
    by_contra h
    simp [List.getElem?_eq_none (by omega : ks.length ≤ i)] at h1
  have hi' : i' < ks.length := by
    by_contra h
    simp [List.getElem?_eq_none (by omega : ks.length ≤ i')] at h2
  rw [List.getElem?_eq_getElem hi] at h1
  rw [List.getElem?_eq_getElem hi'] at h2
  have : ks[i'] = ks[i] := by
    simp at h1 h2; rw [h1, h2]
  exact (List.Nodup.getElem_inj_iff hnd).mp this

/-- C1: for a metric with pairwise distinct keys and as many values as keys, and
requested names that form a subsequence of the keys, `GetLabelsByName` returns
one value per name, and the value at position `j` is the label value stored at
the one key position holding `names[j]`. -/
theorem GetLabelsByName_subsequence (m : Metric) (names : List String)
    (hnodup : m.LabelKeys.Nodup)
    (hlen : m.LabelKeys.length = m.LabelValues.length)
    (hsub : names.Sublist m.LabelKeys) :
    ∃ out, GetLabelsByName m names = .ok out ∧ out.length = names.length ∧
      ∀ (j : Nat) (name : String), names[j]? = some name →
        ∃ (i : Nat) (v : String),
          m.LabelKeys[i]? = some name ∧ m.LabelValues[i]? = some v ∧
          out[j]? = some v ∧ ∀ i' : Nat, m.LabelKeys[i']? = some name → i' = i := by
  obtain ⟨h1, h2⟩ := matched_sublist m.LabelKeys m.LabelValues names hlen hsub
  refine ⟨_, GetLabelsByName_eq m names (by omega), ?_, ?_⟩
  · simp [h1]
  · intro j name hj
    obtain ⟨i, v, hi1, hi2, hi3⟩ := h2 j name hj
    refine ⟨i, v, hi1, hi2, ?_, ?_⟩
    · simp [h1, hi3]
    · intro i' hi'
      exact getElem_opt_unique_of_nodup _ hnodup i i' name hi1 hi'

/-- C2: for a metric with as many values as keys and any requested names (empty,
absent, repeated or in any order), `GetLabelsByName` returns exactly
`len(names)` values. -/
theorem GetLabelsByName_length (m : Metric) (names : List String)
    (hlen : m.LabelKeys.length = m.LabelValues.length) :
    ∃ out, GetLabelsByName m names = .ok out ∧ out.length = names.length := by
  refine ⟨_, GetLabelsByName_eq m names (by omega), ?_⟩
  have := matched_length_le m.LabelKeys m.LabelValues names
  simp
  omega


/-- Witness of C1 on the metric of `TestAggregations` and the names `[type]`. -/
theorem GetLabelsByName_subsequence_witness :
    exampleMetric.LabelKeys.Nodup ∧
    exampleMetric.LabelKeys.length = exampleMetric.LabelValues.length ∧
    ["type"].Sublist exampleMetric.LabelKeys ∧
    ∃ out, GetLabelsByName exampleMetric ["type"] = .ok out ∧ out.length = ["type"].length ∧
      ∀ (j : Nat) (name : String), ["type"][j]? = some name →
        ∃ (i : Nat) (v : String),
          exampleMetric.LabelKeys[i]? = some name ∧ exampleMetric.LabelValues[i]? = some v ∧
          out[j]? = some v ∧ ∀ i' : Nat, exampleMetric.LabelKeys[i']? = some name → i' = i :=
  ⟨by decide, by decide, by decide,
    GetLabelsByName_subsequence exampleMetric ["type"] (by decide) (by decide) (by decide)⟩

/-- Witness of C2 on the metric of `TestAggregations` and an out-of-order,
partly absent request. -/
theorem GetLabelsByName_length_witness :
    exampleMetric.LabelKeys.length = exampleMetric.LabelValues.length ∧
    ∃ out, GetLabelsByName exampleMetric ["type", "missing", "uid"] = .ok out ∧
      out.length = ["type", "missing", "uid"].length :=
  ⟨by decide, GetLabelsByName_length exampleMetric ["type", "missing", "uid"] (by decide)⟩

/-! ## Aggregations -/

/-- On a metric with a value for every key, `GetLabelsByName` returns `projected`. -/
theorem GetLabelsByName_projected (m : Metric) (names : List String)
    (h : m.LabelKeys.length ≤ m.LabelValues.length) :
    GetLabelsByName m names = .ok (projected m names) :=
  GetLabelsByName_eq m names h

/-- An element read at an index is a member of the list. -/
theorem mem_of_getElem_opt {α : Type} (l : List α) (i : Nat) (a : α) (h : l[i]? = some a) :
    a ∈ l := by
  obtain ⟨hi, rfl⟩ := List.getElem?_eq_some_iff.mp h
  exact List.getElem_mem hi

/-- An index that reads an element is within the list. -/
theorem lt_of_getElem_opt {α : Type} (l : List α) (i : Nat) (a : α) (h : l[i]? = some a) :
    i < l.length :=
  (List.getElem?_eq_some_iff.mp h).1

/-- Concatenating blocks of one common length `k`: the total length, and the
element at index `i * k + j`. -/
theorem flatMap_uniform {α β : Type} (f : α → List β) (k : Nat) (l : List α)
    (h : ∀ a ∈ l, (f a).length = k) :
    (l.flatMap f).length = k * l.length ∧
    ∀ (i j : Nat) (a : α), l[i]? = some a → j < k → (l.flatMap f)[i * k + j]? = (f a)[j]? := by
  induction l with
  | nil => simp
  | cons a l ih =>
    obtain ⟨h1, h2⟩ := ih (fun b hb => h b (List.mem_cons_of_mem _ hb))
    have ha : (f a).length = k := h a (List.mem_cons_self _ _)
    refine ⟨?_, ?_⟩
    · simp [List.flatMap_cons, h1, ha, Nat.mul_succ]
      omega
    · intro i j b hb hj
      rw [List.flatMap_cons]
      cases i with
      | zero =>
        simp at hb
        subst hb
        rw [List.getElem?_append_left (by omega)]
        simp
      | succ i =>
        simp at hb
        have hidx : (i + 1) * k + j - (f a).length = i * k + j := by
          rw [ha, Nat.succ_mul]; omega
        rw [List.getElem?_append_right (by rw [ha, Nat.succ_mul]; omega), hidx]
        exact h2 i j b hb hj

/-- The inner loop appends one row per label set. -/
theorem inner_eq (labels : List String) (m : Metric) (p : List String)
    (hp : GetLabelsByName m labels = .ok p) (sets : List (List String))
    (acc : List AggregatedValue) :
    ByNamespaceAndOwner.inner labels m sets acc
      = .ok (acc ++ sets.map (fun s => { Value := m.Value, LabelValues := s ++ p })) := by
  induction sets generalizing acc with
  | nil => simp [ByNamespaceAndOwner.inner]
  | cons s sets ih => simp [ByNamespaceAndOwner.inner, hp, ih]

/-- The outer loop appends, metric by metric, one row per label set. -/
theorem outer_eq (labels : List String) (sets : List (List String)) (ms : List Metric)
    (hlen : ∀ m ∈ ms, m.LabelKeys.length ≤ m.LabelValues.length)
    (acc : List AggregatedValue) :
    ByNamespaceAndOwner.outer labels sets ms acc
      = .ok (acc ++ ms.flatMap (fun m =>
          sets.map (fun s => { Value := m.Value, LabelValues := s ++ projected m labels }))) := by
  induction ms generalizing acc with
  | nil => simp [ByNamespaceAndOwner.outer]
  | cons m ms ih =>
    have hm := GetLabelsByName_projected m labels (hlen m (List.mem_cons_self _ _))
    simp only [ByNamespaceAndOwner.outer, inner_eq labels m _ hm]
    rw [ih (fun b hb => hlen b (List.mem_cons_of_mem _ hb))]
    simp [List.flatMap_cons]

/-- The label set of each owner reference, with the controller flag rendered as
`"true"` only when it is set to true. -/
theorem ownerSets_eq (ns : String) (owners : List OwnerReference) :
    ByNamespaceAndOwner.ownerSets ns owners
      = owners.map (fun owner =>
          [ns, owner.Kind, owner.Name, if owner.Controller = some true then "true" else "false"]) := by
  induction owners with
  | nil => simp [ByNamespaceAndOwner.ownerSets]
  | cons o os ih =>
    simp only [ByNamespaceAndOwner.ownerSets, ih, List.map_cons]
    congr 1
    cases hc : o.Controller with
    | none => simp
    | some c => cases c <;> simp [FormatBool]

/-- The loop of `ByLabels` appends one row per metric. -/
theorem byLabels_loop_eq (names : List String) (ms : List Metric)
    (hlen : ∀ m ∈ ms, m.LabelKeys.length ≤ m.LabelValues.length)
    (acc : List AggregatedValue) :
    ByLabels.loop names ms acc
      = .ok (acc ++ ms.map (fun m => { Value := m.Value, LabelValues := projected m names })) := by
  induction ms generalizing acc with
  | nil => simp [ByLabels.loop]
  | cons m ms ih =>
    have hm := GetLabelsByName_projected m names (hlen m (List.mem_cons_self _ _))
    simp only [ByLabels.loop, hm]
    rw [ih (fun b hb => hlen b (List.mem_cons_of_mem _ hb))]
    simp

/-- C3: on an object with `k ≥ 1` owner references and a family of `m` metrics, each
with as many label values as label keys, the `Aggregate` function of
`ByNamespaceAndOwner(labels...)` returns `k * m` rows; the row at index
`i * k + j` carries the value of metric `i` and the label values
`[namespace, owner j's kind, owner j's name, flag]` followed by
`GetLabelsByName(metric i, labels...)`, where the flag is `"true"` when owner
`j`'s controller flag is set to true and `"false"` when it is false or unset. -/
theorem ByNamespaceAndOwner_cross_product (labels : List String) (objectMeta : ObjectMeta)
    (f : Family)
    (hk : 1 ≤ objectMeta.OwnerReferences.length)
    (hlen : ∀ m ∈ f.Metrics, m.LabelKeys.length = m.LabelValues.length) :
    ∃ rows, (ByNamespaceAndOwner labels).Aggregate (.accessor objectMeta) f = .ok rows ∧
      rows.length = objectMeta.OwnerReferences.length * f.Metrics.length ∧
      ∀ (i j : Nat) (m : Metric) (owner : OwnerReference),
        f.Metrics[i]? = some m → objectMeta.OwnerReferences[j]? = some owner →
        ∃ labelValues, GetLabelsByName m labels = .ok labelValues ∧
          rows[i * objectMeta.OwnerReferences.length + j]? = some
            { Value := m.Value,
              LabelValues :=
                [objectMeta.Namespace, owner.Kind, owner.Name,
                  if owner.Controller = some true then "true" else "false"] ++ labelValues } := by
  have hle : ∀ m ∈ f.Metrics, m.LabelKeys.length ≤ m.LabelValues.length :=
    fun m hm => le_of_eq (hlen m hm)
  have hne : ¬ objectMeta.OwnerReferences.length = 0 := by omega
  have hagg : (ByNamespaceAndOwner labels).Aggregate (.accessor objectMeta) f
      = .ok (f.Metrics.flatMap (fun m =>
          (objectMeta.OwnerReferences.map (fun owner =>
            [objectMeta.Namespace, owner.Kind, owner.Name,
              if owner.Controller = some true then "true" else "false"])).map
            (fun s => { Value := m.Value, LabelValues := s ++ projected m labels }))) := by
    simp only [ByNamespaceAndOwner, Family.Inspect, ByNamespaceAndOwner.labelSets, if_neg hne,
      ownerSets_eq]
    rw [outer_eq labels _ f.Metrics hle []]
    simp
  have huni := flatMap_uniform
    (fun m : Metric =>
      (objectMeta.OwnerReferences.map (fun owner =>
        [objectMeta.Namespace, owner.Kind, owner.Name,
          if owner.Controller = some true then "true" else "false"])).map
        (fun s => ({ Value := m.Value, LabelValues := s ++ projected m labels } : AggregatedValue)))
    objectMeta.OwnerReferences.length f.Metrics (fun a _ => by simp)
  refine ⟨_, hagg, huni.1, ?_⟩
  intro i j m owner hi hj
  refine ⟨projected m labels,
    GetLabelsByName_projected m labels (hle m (mem_of_getElem_opt _ i m hi)), ?_⟩
  have hjlt : j < objectMeta.OwnerReferences.length := lt_of_getElem_opt _ j owner hj
  rw [huni.2 i j m hi hjlt]
  simp [List.getElem?_map, hj]

/-- Witness of C3 on an object with two owner references and a family of two
metrics. -/
theorem ByNamespaceAndOwner_cross_product_witness :
    1 ≤ exampleOwned.OwnerReferences.length ∧
    (∀ m ∈ exampleFamily.Metrics, m.LabelKeys.length = m.LabelValues.length) ∧
    ∃ rows, (ByNamespaceAndOwner ["type"]).Aggregate (.accessor exampleOwned) exampleFamily
        = .ok rows ∧
      rows.length = exampleOwned.OwnerReferences.length * exampleFamily.Metrics.length ∧
      ∀ (i j : Nat) (m : Metric) (owner : OwnerReference),
        exampleFamily.Metrics[i]? = some m → exampleOwned.OwnerReferences[j]? = some owner →
        ∃ labelValues, GetLabelsByName m ["type"] = .ok labelValues ∧
          rows[i * exampleOwned.OwnerReferences.length + j]? = some
            { Value := m.Value,
              LabelValues :=
                [exampleOwned.Namespace, owner.Kind, owner.Name,
                  if owner.Controller = some true then "true" else "false"] ++ labelValues } :=
  ⟨by decide, by decide,
    ByNamespaceAndOwner_cross_product ["type"] exampleOwned exampleFamily (by decide) (by decide)⟩

/-- Concatenating one-element blocks is a map. -/
theorem flatMap_singleton_eq_map {α β : Type} (g : α → β) (l : List α) :
    l.flatMap (fun a => [g a]) = l.map g := by
  induction l with
  | nil => rfl
  | cons a l ih => simp [List.flatMap_cons, ih]

/-- C4: on an object with no owner reference and a family of `m` metrics of the data
model (every metric has a label value for each label key, as the Metric
invariant requires), the `Aggregate` function of `ByNamespaceAndOwner(labels...)`
returns `m` rows, one per metric in metric order, the `i`-th carrying the value
of the `i`-th metric and the label values
`[namespace, "<none>", "<none>", "<none>"]` followed by
`GetLabelsByName(i-th metric, labels...)`. -/
theorem ByNamespaceAndOwner_no_owner (labels : List String) (objectMeta : ObjectMeta)
    (f : Family)
    (hown : objectMeta.OwnerReferences = [])
    (hlen : ∀ m ∈ f.Metrics, m.LabelKeys.length ≤ m.LabelValues.length) :
    ∃ rows, (ByNamespaceAndOwner labels).Aggregate (.accessor objectMeta) f = .ok rows ∧
      rows.length = f.Metrics.length ∧
      ∀ (i : Nat) (m : Metric), f.Metrics[i]? = some m →
        ∃ labelValues, GetLabelsByName m labels = .ok labelValues ∧
          rows[i]? = some
            { Value := m.Value,
              LabelValues := [objectMeta.Namespace, "<none>", "<none>", "<none>"] ++ labelValues } := by
  have hagg : (ByNamespaceAndOwner labels).Aggregate (.accessor objectMeta) f
      = .ok (f.Metrics.map (fun m =>
          { Value := m.Value,
            LabelValues := [objectMeta.Namespace, "<none>", "<none>", "<none>"]
              ++ projected m labels })) := by
    simp only [ByNamespaceAndOwner, Family.Inspect, ByNamespaceAndOwner.labelSets, hown,
      List.length_nil, if_true]
    rw [outer_eq labels _ f.Metrics hlen []]
    simp only [List.map_cons, List.map_nil, List.nil_append, flatMap_singleton_eq_map]
  refine ⟨_, hagg, by simp, ?_⟩
  intro i m hi
  refine ⟨projected m labels,
    GetLabelsByName_projected m labels (hlen m (mem_of_getElem_opt _ i m hi)), ?_⟩
  simp [List.getElem?_map, hi]

/-- Witness of C4 on a service without owners and a family of two
metrics. -/
theorem ByNamespaceAndOwner_no_owner_witness :
    exampleService.OwnerReferences = [] ∧
    (∀ m ∈ exampleFamily.Metrics, m.LabelKeys.length ≤ m.LabelValues.length) ∧
    ∃ rows, (ByNamespaceAndOwner ["type"]).Aggregate (.accessor exampleService) exampleFamily
        = .ok rows ∧
      rows.length = exampleFamily.Metrics.length ∧
      ∀ (i : Nat) (m : Metric), exampleFamily.Metrics[i]? = some m →
        ∃ labelValues, GetLabelsByName m ["type"] = .ok labelValues ∧
          rows[i]? = some
            { Value := m.Value,
              LabelValues :=
                [exampleService.Namespace, "<none>", "<none>", "<none>"] ++ labelValues } :=
  ⟨rfl, by decide,
    ByNamespaceAndOwner_no_owner ["type"] exampleService exampleFamily rfl (by decide)⟩

/-- Outside the data model: a metric with the label key `type` and no label value
breaks the Metric invariant; on it the `Aggregate` function of
`ByNamespaceAndOwner("type")` panics with an index out of range. -/
theorem ByNamespaceAndOwner_no_owner_malformed_metric :
    (ByNamespaceAndOwner ["type"]).Aggregate (.accessor exampleService) malformedFamily
      = .error .indexOutOfRange ∧
    exampleService.OwnerReferences = [] ∧
    ¬ ∃ rows, (ByNamespaceAndOwner ["type"]).Aggregate (.accessor exampleService) malformedFamily
        = .ok rows ∧ rows.length = malformedFamily.Metrics.length := by
  have h : (ByNamespaceAndOwner ["type"]).Aggregate (.accessor exampleService) malformedFamily
      = .error .indexOutOfRange := rfl
  refine ⟨h, rfl, ?_⟩
  rintro ⟨rows, hrows, _⟩
  rw [h] at hrows
  cases hrows

/-- C5: on every object and a family of `m` metrics of the data model (every metric
has a label value for each label key, as the Metric invariant requires), the
`Aggregate` function of `ByLabels(names...)` returns `m` rows in metric order,
with no fan-out: the `i`-th row carries the value of the `i`-th metric and the
label values `GetLabelsByName(i-th metric, names...)`; the object is not
consulted, the result is the same for every other object. -/
theorem ByLabels_one_row_per_metric (names : List String) (obj : Object) (f : Family)
    (hlen : ∀ m ∈ f.Metrics, m.LabelKeys.length ≤ m.LabelValues.length) :
    ∃ rows, (ByLabels names).Aggregate obj f = .ok rows ∧
      rows.length = f.Metrics.length ∧
      (∀ (i : Nat) (m : Metric), f.Metrics[i]? = some m →
        ∃ labelValues, GetLabelsByName m names = .ok labelValues ∧
          rows[i]? = some { Value := m.Value, LabelValues := labelValues }) ∧
      ∀ obj1 : Object, (ByLabels names).Aggregate obj1 f = .ok rows := by
  have hagg : ∀ o : Object, (ByLabels names).Aggregate o f
      = .ok (f.Metrics.map (fun m => { Value := m.Value, LabelValues := projected m names })) := by
    intro o
    simp only [ByLabels, Family.Inspect]
    rw [byLabels_loop_eq names f.Metrics hlen []]
    simp
  refine ⟨_, hagg obj, by simp, ?_, hagg⟩
  intro i m hi
  refine ⟨projected m names,
    GetLabelsByName_projected m names (hlen m (mem_of_getElem_opt _ i m hi)), ?_⟩
  simp [List.getElem?_map, hi]

/-- Witness of C5 on an object without metadata accessor and a
family of two metrics. -/
theorem ByLabels_one_row_per_metric_witness :
    (∀ m ∈ exampleFamily.Metrics, m.LabelKeys.length ≤ m.LabelValues.length) ∧
    ∃ rows, (ByLabels ["type"]).Aggregate (.plain "") exampleFamily = .ok rows ∧
      rows.length = exampleFamily.Metrics.length ∧
      (∀ (i : Nat) (m : Metric), exampleFamily.Metrics[i]? = some m →
        ∃ labelValues, GetLabelsByName m ["type"] = .ok labelValues ∧
          rows[i]? = some { Value := m.Value, LabelValues := labelValues }) ∧
      ∀ obj1 : Object, (ByLabels ["type"]).Aggregate obj1 exampleFamily = .ok rows :=
  ⟨by decide, ByLabels_one_row_per_metric ["type"] (.plain "") exampleFamily (by decide)⟩

/-- Outside the data model: on the metric with the label key `type` and no label
value the `Aggregate` function of `ByLabels("type")` panics with an index out
of range. -/
theorem ByLabels_malformed_metric :
    (ByLabels ["type"]).Aggregate (.accessor exampleService) malformedFamily
      = .error .indexOutOfRange ∧
    ¬ ∃ rows, (ByLabels ["type"]).Aggregate (.accessor exampleService) malformedFamily
        = .ok rows ∧ rows.length = malformedFamily.Metrics.length := by
  have h : (ByLabels ["type"]).Aggregate (.accessor exampleService) malformedFamily
      = .error .indexOutOfRange := rfl
  refine ⟨h, ?_⟩
  rintro ⟨rows, hrows, _⟩
  rw [h] at hrows
  cases hrows


/-! ## Generator filtering -/

/-- An entry of the map after `m[k] = v` was in `m` or is the new entry. -/
theorem GoMap.mem_set {V : Type} (m : List (String × V)) (k : String) (v : V) (p : String × V)
    (hp : p ∈ GoMap.set m k v) : p ∈ m ∨ p = (k, v) := by
  induction m with
  | nil => simp [GoMap.set] at hp; exact Or.inr hp
  | cons q m ih =>
    obtain ⟨k1, v1⟩ := q
    simp only [GoMap.set] at hp
    split at hp
    · rcases List.mem_cons.mp hp with h | h
      · exact Or.inr h
      · exact Or.inl (List.mem_cons_of_mem _ h)
    · rcases List.mem_cons.mp hp with h | h
      · exact Or.inl (h ▸ List.mem_cons_self _ _)
      · rcases ih h with h1 | h1
        · exact Or.inl (List.mem_cons_of_mem _ h1)
        · exact Or.inr h1

/-- After `m[k] = v` the key `k` is in the map. -/
theorem GoMap.key_mem_set {V : Type} (m : List (String × V)) (k : String) (v : V) :
    ∃ p ∈ GoMap.set m k v, p.1 = k := by
  induction m with
  | nil => exact ⟨(k, v), by simp [GoMap.set], rfl⟩
  | cons q m ih =>
    obtain ⟨k1, v1⟩ := q
    simp only [GoMap.set]
    split
    · exact ⟨(k, v), List.mem_cons_self _ _, rfl⟩
    · obtain ⟨p, hp, hk⟩ := ih
      exact ⟨p, List.mem_cons_of_mem _ hp, hk⟩

/-- The assignment `m[k] = v` loses no key. -/
theorem GoMap.keys_kept_set {V : Type} (m : List (String × V)) (k : String) (v : V)
    (q : String × V) (hq : q ∈ m) : ∃ p ∈ GoMap.set m k v, p.1 = q.1 := by
  induction m with
  | nil => cases hq
  | cons r m ih =>
    obtain ⟨k1, v1⟩ := r
    simp only [GoMap.set]
    split
    · rename_i hk
      rcases List.mem_cons.mp hq with h | h
      · exact ⟨(k, v), List.mem_cons_self _ _, by rw [h]; exact hk.symm⟩
      · exact ⟨q, List.mem_cons_of_mem _ h, rfl⟩
    · rcases List.mem_cons.mp hq with h | h
      · exact ⟨(k1, v1), List.mem_cons_self _ _, by rw [h]⟩
      · obtain ⟨p, hp, hk⟩ := ih h
        exact ⟨p, List.mem_cons_of_mem _ hp, hk⟩

/-- The names map built by the loop of `aggregatedMetricNames`, started from `acc`. -/
theorem names_fold_spec {V : Type} (derive : String → String) (entries : List (String × V))
    (acc : List (String × String)) (hacc : ∀ p ∈ acc, p.2 = derive p.1) :
    (∀ p ∈ entries.foldl (fun names e => GoMap.set names e.1 (derive e.1)) acc,
        p.2 = derive p.1) ∧
    (∀ q ∈ acc, ∃ p ∈ entries.foldl (fun names e => GoMap.set names e.1 (derive e.1)) acc,
        p.1 = q.1) ∧
    (∀ e ∈ entries, ∃ p ∈ entries.foldl (fun names e => GoMap.set names e.1 (derive e.1)) acc,
        p.1 = e.1) := by
  induction entries generalizing acc with
  | nil =>
    refine ⟨hacc, fun q hq => ⟨q, hq, rfl⟩, ?_⟩
    intro e he
    cases he
  | cons e entries ih =>
    have hacc' : ∀ p ∈ GoMap.set acc e.1 (derive e.1), p.2 = derive p.1 := by
      intro p hp
      rcases GoMap.mem_set _ _ _ _ hp with h | h
      · exact hacc p h
      · rw [h]
    obtain ⟨h1, h2, h3⟩ := ih (GoMap.set acc e.1 (derive e.1)) hacc'
    simp only [List.foldl_cons]
    refine ⟨h1, ?_, ?_⟩
    · intro q hq
      obtain ⟨p, hp, hk⟩ := GoMap.keys_kept_set acc e.1 (derive e.1) q hq
      obtain ⟨p', hp', hk'⟩ := h2 p hp
      exact ⟨p', hp', hk'.trans hk⟩
    · intro x hx
      rcases List.mem_cons.mp hx with h | h
      · obtain ⟨p, hp, hk⟩ := GoMap.key_mem_set acc e.1 (derive e.1)
        obtain ⟨p', hp', hk'⟩ := h2 p hp
        exact ⟨p', hp', by rw [hk', hk, h]⟩
      · exact h3 x h

/-- Conditional deletes, folded over a list of names, keep the entries that no
excluded name points at. -/
theorem fold_delete_eq {V : Type} (l : whiteBlackLister) (names : List (String × String))
    (m : List (String × V)) :
    names.foldl (fun m p => if l.IsExcluded p.2 then GoMap.delete m p.1 else m) m
      = m.filter (fun e => names.all (fun p => !(l.IsExcluded p.2 && decide (p.1 = e.1)))) := by
  induction names generalizing m with
  | nil => simp
  | cons p names ih =>
    rw [List.foldl_cons, ih]
    cases hx : l.IsExcluded p.2
    · simp [hx]
    · simp only [if_true, GoMap.delete, List.filter_filter]
      apply List.filter_congr
      intro e _
      by_cases hk : p.1 = e.1
      · have hk' : e.1 = p.1 := hk.symm
        simp [hk, hx]
      · have hk' : ¬ e.1 = p.1 := fun h => hk h.symm
        simp [hk, hk', hx]

/-- The pruning loop only touches `AggregateBy`. -/
theorem prune_eq (l : whiteBlackLister) (names : List (String × String)) (g : FamilyGenerator) :
    FamilyGenerator.filterAggregations.prune l (some names) g
      = { g with AggregateBy := g.AggregateBy.map (fun m =>
            names.foldl (fun m p => if l.IsExcluded p.2 then GoMap.delete m p.1 else m) m) } := by
  induction names generalizing g with
  | nil =>
    cases g with
    | mk n h t f a o =>
      cases a <;> simp [FamilyGenerator.filterAggregations.prune]
  | cons p names ih =>
    have hstep : FamilyGenerator.filterAggregations.prune l (some (p :: names)) g
        = FamilyGenerator.filterAggregations.prune l (some names)
            (if l.IsExcluded p.2 then
              { g with AggregateBy := g.AggregateBy.map (fun m => GoMap.delete m p.1) }
            else g) := by
      simp [FamilyGenerator.filterAggregations.prune]
    rw [hstep, ih]
    cases g with
    | mk n h t f a o =>
      cases hx : l.IsExcluded p.2
      · cases a <;> simp [hx]
      · cases a <;> simp [hx]

/-- Go ranges over a map in an unspecified order: the pruning loop gives the same
generator for every order of the names. -/
theorem prune_order_irrelevant (l : whiteBlackLister) (names names1 : List (String × String))
    (hperm : names.Perm names1) (g : FamilyGenerator) :
    FamilyGenerator.filterAggregations.prune l (some names) g
      = FamilyGenerator.filterAggregations.prune l (some names1) g := by
  rw [prune_eq, prune_eq]
  have h : ∀ m : List (String × Aggregation),
      names.foldl (fun m p => if l.IsExcluded p.2 then GoMap.delete m p.1 else m) m
        = names1.foldl (fun m p => if l.IsExcluded p.2 then GoMap.delete m p.1 else m) m := by
    intro m
    rw [fold_delete_eq, fold_delete_eq]
    apply List.filter_congr
    intro e _
    rw [Bool.eq_iff_iff]
    simp only [List.all_eq_true]
    exact ⟨fun h p hp => h p (hperm.mem_iff.mpr hp), fun h p hp => h p (hperm.mem_iff.mp hp)⟩
  simp only [h]

/-- Pruning by the names map built from `m` itself keeps the entries whose derived
name is not excluded. -/
theorem derived_filter_eq {V : Type} (derive : String → String) (l : whiteBlackLister)
    (m : List (String × V)) :
    m.filter (fun e =>
        (m.foldl (fun names e => GoMap.set names e.1 (derive e.1)) []).all
          (fun p => !(l.IsExcluded p.2 && decide (p.1 = e.1))))
      = m.filter (fun e => !l.IsExcluded (derive e.1)) := by
  obtain ⟨h1, _, h3⟩ := names_fold_spec derive m [] (by intro p hp; cases hp)
  apply List.filter_congr
  intro e he
  cases hx : l.IsExcluded (derive e.1)
  · simp only [Bool.not_false, List.all_eq_true]
    intro p hp
    by_cases hk : p.1 = e.1
    · have := h1 p hp
      simp [this, hk, hx]
    · simp [hk]
  · simp only [Bool.not_true]
    obtain ⟨p, hp, hk⟩ := h3 e he
    have h2 := h1 p hp
    rw [Bool.eq_false_iff]
    intro hall
    have := List.all_eq_true.mp hall p hp
    simp [h2, hk, hx] at this

/-- The pruning loop of `filterAggregations`, in closed form. -/
theorem prune_names_eq (suffix : String → String) (l : whiteBlackLister)
    (g : FamilyGenerator) :
    FamilyGenerator.filterAggregations.prune l (g.aggregatedMetricNames suffix) g
      = { g with AggregateBy := g.AggregateBy.map (fun m =>
            m.filter (fun e => !l.IsExcluded (g.derivedName suffix e.1))) } := by
  cases g with
  | mk n h t f a o =>
    cases a with
    | none =>
      simp [FamilyGenerator.aggregatedMetricNames, FamilyGenerator.filterAggregations.prune]
    | some m =>
      have hn : FamilyGenerator.aggregatedMetricNames suffix
          { Name := n, Help := h, Type_ := t, GenerateFunc := f, AggregateBy := some m,
            AggregationsOnly := o }
          = some (m.foldl (fun names e => GoMap.set names e.1 (n ++ suffix e.1)) []) := by
        simp [FamilyGenerator.aggregatedMetricNames]
      rw [hn, prune_eq]
      simp only [Option.map_some', fold_delete_eq, FamilyGenerator.derivedName]
      rw [derived_filter_eq (fun k => n ++ suffix k) l m]

/-- The generator and the boolean `filterAggregations` yields, in closed form. -/
theorem filterAggregations_eq (suffix : String → String) (l : whiteBlackLister)
    (g : FamilyGenerator) :
    g.filterAggregations suffix l
      = ({ g with
            AggregationsOnly := l.IsExcluded g.Name || g.AggregationsOnly,
            AggregateBy := if (g.kept suffix l).isEmpty then none else some (g.kept suffix l) },
         !(l.IsExcluded g.Name || g.AggregationsOnly) || !(g.kept suffix l).isEmpty) := by
  unfold FamilyGenerator.filterAggregations
  simp only []
  cases hx : l.IsExcluded g.Name
  · simp only [Bool.false_eq_true, if_false, prune_names_eq, Bool.false_or]
    cases g with
    | mk n h t f a o =>
      cases a with
      | none => simp [GoMap.len, FamilyGenerator.kept, FamilyGenerator.attached]
      | some m =>
        simp only [Option.map_some', GoMap.len, FamilyGenerator.kept, FamilyGenerator.attached,
          FamilyGenerator.derivedName]
        by_cases hk : (m.filter (fun e => !l.IsExcluded (n ++ suffix e.1))) = []
        · simp [hk]
        · have hlen : ¬ (m.filter (fun e => !l.IsExcluded (n ++ suffix e.1))).length = 0 := by
            simpa [List.length_eq_zero] using hk
          simp [hk, hlen, List.isEmpty_iff]
  · simp only [if_true, prune_names_eq, Bool.true_or]
    cases g with
    | mk n h t f a o =>
      cases a with
      | none => simp [GoMap.len, FamilyGenerator.kept, FamilyGenerator.attached]
      | some m =>
        simp only [Option.map_some', GoMap.len, FamilyGenerator.kept, FamilyGenerator.attached,
          FamilyGenerator.derivedName]
        by_cases hk : (m.filter (fun e => !l.IsExcluded (n ++ suffix e.1))) = []
        · simp [hk]
        · have hlen : ¬ (m.filter (fun e => !l.IsExcluded (n ++ suffix e.1))).length = 0 := by
            simpa [List.length_eq_zero] using hk
          simp [hk, hlen, List.isEmpty_iff]

/-- C8: after `filterAggregations` the attached aggregations are exactly the
originally attached entries (aggregation name and `Aggregation`) whose derived
name the policy does not exclude. -/
theorem filterAggregations_attached (suffix : String → String) (l : whiteBlackLister)
    (g : FamilyGenerator) :
    (g.filterAggregations suffix l).1.attached
      = g.attached.filter (fun e => !l.IsExcluded (g.derivedName suffix e.1)) := by
  have hkept : g.attached.filter (fun e => !l.IsExcluded (g.derivedName suffix e.1))
      = g.kept suffix l := rfl
  rw [filterAggregations_eq, hkept]
  cases hk : (g.kept suffix l).isEmpty
  · simp [FamilyGenerator.attached]
  · simp [FamilyGenerator.attached, (List.isEmpty_iff.mp hk)]

/-- C9: after `filterAggregations` the `AggregateBy` map is nil or non-empty, and it
is nil whenever every attached aggregation's derived name is excluded (in
particular when none was attached). -/
theorem filterAggregations_normalized (suffix : String → String) (l : whiteBlackLister)
    (g : FamilyGenerator) :
    ((g.filterAggregations suffix l).1.AggregateBy = none ∨
      ∃ m, (g.filterAggregations suffix l).1.AggregateBy = some m ∧ m ≠ []) ∧
    ((∀ e ∈ g.attached, l.IsExcluded (g.derivedName suffix e.1) = true) →
      (g.filterAggregations suffix l).1.AggregateBy = none) := by
  rw [filterAggregations_eq]
  refine ⟨?_, ?_⟩
  · cases hk : (g.kept suffix l).isEmpty
    · right
      refine ⟨g.kept suffix l, by simp, ?_⟩
      intro h
      rw [h] at hk
      simp at hk
    · left
      simp
  · intro hall
    have : g.kept suffix l = [] := by
      simp only [FamilyGenerator.kept, List.filter_eq_nil_iff]
      intro e he
      simp [hall e he]
    simp [this]

/-- C10: `Generate` returns the family of `g.GenerateFunc(obj)` with `Name` and
`Type` replaced by the generator's, whatever the transform put there; the
metrics (and the help string) are those of the transform's family. -/
theorem Generate_stamps_name_and_type (g : FamilyGenerator) (obj : Object) :
    (g.Generate obj).Name = g.Name ∧
    (g.Generate obj).Type_ = g.Type_ ∧
    (g.Generate obj).Metrics = (g.GenerateFunc obj).Metrics ∧
    (g.Generate obj).Help = (g.GenerateFunc obj).Help :=
  ⟨rfl, rfl, rfl, rfl⟩

/-! ## Label projection: absent and out-of-order names, absence of panics -/

/-- Every name the pass has matched is one of the keys. -/
theorem matched_prefix_mem (ks vs ns : List String) (t : Nat)
    (ht : t < (matched ks vs ns).length) :
    ∃ (q : Nat) (name : String), ns[t]? = some name ∧ ks[q]? = some name := by
  induction ks generalizing vs ns t with
  | nil => simp [matched] at ht
  | cons k ks ih =>
    cases vs with
    | nil => simp [matched] at ht
    | cons v vs =>
      cases ns with
      | nil => simp [matched] at ht
      | cons n ns =>
        simp only [matched] at ht
        by_cases hk : k = n
        · rw [if_pos hk] at ht
          cases t with
          | zero => exact ⟨0, n, by simp, by simp [hk]⟩
          | succ t =>
            have ht' : t < (matched ks vs ns).length := by simpa using ht
            obtain ⟨q, name, h1, h2⟩ := ih vs ns t ht'
            exact ⟨q + 1, name, by simpa using h1, by simpa using h2⟩
        · rw [if_neg hk] at ht
          obtain ⟨q, name, h1, h2⟩ := ih vs (n :: ns) t ht
          exact ⟨q + 1, name, h1, by simpa using h2⟩

/-- The pass matches the names at strictly increasing key positions. -/
theorem matched_increasing (ks vs ns : List String) (t1 t2 : Nat) (h12 : t1 < t2)
    (ht : t2 < (matched ks vs ns).length) :
    ∃ (q1 q2 : Nat) (n1 n2 : String), q1 < q2 ∧
      ns[t1]? = some n1 ∧ ks[q1]? = some n1 ∧ ns[t2]? = some n2 ∧ ks[q2]? = some n2 := by
  induction ks generalizing vs ns t1 t2 with
  | nil => simp [matched] at ht
  | cons k ks ih =>
    cases vs with
    | nil => simp [matched] at ht
    | cons v vs =>
      cases ns with
      | nil => simp [matched] at ht
      | cons n ns =>
        simp only [matched] at ht
        by_cases hk : k = n
        · rw [if_pos hk] at ht
          cases t2 with
          | zero => omega
          | succ t2 =>
            have ht' : t2 < (matched ks vs ns).length := by simpa using ht
            cases t1 with
            | zero =>
              obtain ⟨q, name, h1, h2⟩ := matched_prefix_mem ks vs ns t2 ht'
              exact ⟨0, q + 1, n, name, by omega, by simp, by simp [hk], by simpa using h1,
                by simpa using h2⟩
            | succ t1 =>
              obtain ⟨q1, q2, n1, n2, hq, a1, a2, a3, a4⟩ :=
                ih vs ns t1 t2 (by omega) ht'
              exact ⟨q1 + 1, q2 + 1, n1, n2, by omega, by simpa using a1, by simpa using a2,
                by simpa using a3, by simpa using a4⟩
        · rw [if_neg hk] at ht
          obtain ⟨q1, q2, n1, n2, hq, a1, a2, a3, a4⟩ := ih vs (n :: ns) t1 t2 h12 ht
          exact ⟨q1 + 1, q2 + 1, n1, n2, by omega, a1, by simpa using a2, a3, by simpa using a4⟩

/-- Past the matched values, `projected` holds the sentinel. -/
theorem projected_sentinel (m : Metric) (names : List String) (j : Nat)
    (hj : j < names.length)
    (hc : (matched m.LabelKeys m.LabelValues names).length ≤ j) :
    (projected m names)[j]? = some "<none>" := by
  unfold projected
  rw [List.getElem?_append_right hc]
  have hlt : j - (matched m.LabelKeys m.LabelValues names).length
      < names.length - (matched m.LabelKeys m.LabelValues names).length := by omega
  simp [List.getElem?_replicate, hlt]

/-- C13: on a metric with as many values as keys, a requested name that is not among
the label keys gets the sentinel `"<none>"` at its position. -/
theorem GetLabelsByName_absent_name (m : Metric) (names : List String) (j : Nat)
    (name : String)
    (hlen : m.LabelKeys.length = m.LabelValues.length)
    (hj : names[j]? = some name)
    (habsent : name ∉ m.LabelKeys) :
    ∃ out, GetLabelsByName m names = .ok out ∧ out[j]? = some "<none>" := by
  refine ⟨projected m names, GetLabelsByName_projected m names (by omega), ?_⟩
  apply projected_sentinel m names j (lt_of_getElem_opt _ j name hj)
  by_contra hc
  obtain ⟨q, n1, h1, h2⟩ :=
    matched_prefix_mem m.LabelKeys m.LabelValues names j (by omega)
  rw [hj] at h1
  cases h1
  exact habsent (mem_of_getElem_opt _ q _ h2)

/-- C14: on a metric with pairwise distinct keys and as many values as keys, when
`names[i]` and `names[j]` with `i < j` both are keys but `names[j]` sits at an
earlier key position than `names[i]`, `GetLabelsByName` returns `"<none>"` at
position `j`, although the label is present. -/
theorem GetLabelsByName_out_of_order (m : Metric) (names : List String) (i j pi pj : Nat)
    (ni nj : String)
    (hnodup : m.LabelKeys.Nodup)
    (hlen : m.LabelKeys.length = m.LabelValues.length)
    (hij : i < j)
    (hi : names[i]? = some ni) (hj : names[j]? = some nj)
    (hpi : m.LabelKeys[pi]? = some ni) (hpj : m.LabelKeys[pj]? = some nj)
    (hearlier : pj < pi) :
    ∃ out, GetLabelsByName m names = .ok out ∧ out[j]? = some "<none>" := by
  refine ⟨projected m names, GetLabelsByName_projected m names (by omega), ?_⟩
  apply projected_sentinel m names j (lt_of_getElem_opt _ j nj hj)
  by_contra hc
  obtain ⟨q1, q2, n1, n2, hq, a1, a2, a3, a4⟩ :=
    matched_increasing m.LabelKeys m.LabelValues names i j hij (by omega)
  rw [hi] at a1
  rw [hj] at a3
  cases a1
  cases a3
  have e1 := getElem_opt_unique_of_nodup _ hnodup pi q1 ni hpi a2
  have e2 := getElem_opt_unique_of_nodup _ hnodup pj q2 nj hpj a4
  omega

/-- C19: on a metric with at least as many label values as label keys,
`GetLabelsByName` never indexes out of range: the call returns a value and no
panic, for every list of names; and the scanning loop does not panic from any
state whose name index is below `len(names)` and whose remaining keys all have
a value. -/
theorem GetLabelsByName_no_panic (m : Metric) (names : List String)
    (hlen : m.LabelKeys.length ≤ m.LabelValues.length) :
    (∃ out, GetLabelsByName m names = .ok out) ∧
    (∀ e : GoPanic, GetLabelsByName m names ≠ .error e) ∧
    ∀ (keys : List String) (i nameIndex : Nat) (metricLabels : List String),
      nameIndex < names.length → i + keys.length ≤ m.LabelValues.length →
      ∃ out, GetLabelsByName.scan names m.LabelValues keys i nameIndex metricLabels = .ok out := by
  have h := GetLabelsByName_projected m names hlen
  refine ⟨⟨_, h⟩, ?_, ?_⟩
  · intro e he
    rw [h] at he
    cases he
  · intro keys i nameIndex metricLabels hn hi
    exact ⟨_, scan_eq names m.LabelValues keys i nameIndex metricLabels hn hi⟩


/-- Witness of C13: `missing` is no key of the example metric. -/
theorem GetLabelsByName_absent_name_witness :
    ∃ out, GetLabelsByName exampleMetric ["type", "missing", "uid"] = .ok out ∧
      out[1]? = some "<none>" :=
  GetLabelsByName_absent_name exampleMetric ["type", "missing", "uid"] 1 "missing"
    (by decide) (by decide) (by decide)

/-- Witness of C14: `uid` is requested after `type` but is the earlier key. -/
theorem GetLabelsByName_out_of_order_witness :
    "uid" ∈ exampleMetric.LabelKeys ∧
    ∃ out, GetLabelsByName exampleMetric ["type", "uid"] = .ok out ∧ out[1]? = some "<none>" :=
  ⟨by decide,
    GetLabelsByName_out_of_order exampleMetric ["type", "uid"] 0 1 1 0 "type" "uid"
      (by decide) (by decide) (by decide) (by decide) (by decide) (by decide) (by decide)
      (by decide)⟩

/-- Witness of C19 on the example metric. -/
theorem GetLabelsByName_no_panic_witness :
    (∃ out, GetLabelsByName exampleMetric ["type", "uid"] = .ok out) ∧
    (∀ e : GoPanic, GetLabelsByName exampleMetric ["type", "uid"] ≠ .error e) ∧
    ∀ (keys : List String) (i nameIndex : Nat) (metricLabels : List String),
      nameIndex < ["type", "uid"].length → i + keys.length ≤ exampleMetric.LabelValues.length →
      ∃ out, GetLabelsByName.scan ["type", "uid"] exampleMetric.LabelValues keys i nameIndex
        metricLabels = .ok out :=
  GetLabelsByName_no_panic exampleMetric ["type", "uid"] (by decide)

/-! ## Schema of the aggregated rows, objects without metadata -/

/-- The projection has one value per requested name. -/
theorem projected_length (m : Metric) (names : List String) :
    (projected m names).length = names.length := by
  have := matched_length_le m.LabelKeys m.LabelValues names
  simp [projected]
  omega

/-- Every label set built from the object has the four fixed values. -/
theorem labelSets_length (ns : String) (owners : List OwnerReference) :
    ∀ s ∈ ByNamespaceAndOwner.labelSets ns owners, s.length = 4 := by
  intro s hs
  unfold ByNamespaceAndOwner.labelSets at hs
  split at hs
  · simp at hs
    simp [hs]
  · rw [ownerSets_eq] at hs
    obtain ⟨o, _, rfl⟩ := List.mem_map.mp hs
    simp

/-- C15: on a family whose metrics have as many values as keys, the rows of both
aggregations match the declared label names in length: `ByLabels(names...)`
declares `names` and returns rows of `len(names)` label values;
`ByNamespaceAndOwner(labels...)` declares the four fixed names followed by
`labels`, every row it returns has `4 + len(labels)` label values, and it does
return rows on every object with the metadata accessor. -/
theorem aggregation_rows_match_schema (names labels : List String) (obj : Object) (f : Family)
    (hlen : ∀ m ∈ f.Metrics, m.LabelKeys.length = m.LabelValues.length) :
    ((ByLabels names).LabelNames = names ∧
      ∃ rows, (ByLabels names).Aggregate obj f = .ok rows ∧
        ∀ r ∈ rows, r.LabelValues.length = (ByLabels names).LabelNames.length) ∧
    ((ByNamespaceAndOwner labels).LabelNames
        = ["namespace", "owner_kind", "owner_name", "owner_is_controller"] ++ labels ∧
      (∀ rows, (ByNamespaceAndOwner labels).Aggregate obj f = .ok rows →
        ∀ r ∈ rows, r.LabelValues.length = (ByNamespaceAndOwner labels).LabelNames.length ∧
          r.LabelValues.length = 4 + labels.length) ∧
      ∀ objectMeta : ObjectMeta, obj = .accessor objectMeta →
        ∃ rows, (ByNamespaceAndOwner labels).Aggregate obj f = .ok rows) := by
  have hle : ∀ m ∈ f.Metrics, m.LabelKeys.length ≤ m.LabelValues.length :=
    fun m hm => le_of_eq (hlen m hm)
  refine ⟨⟨rfl, ?_⟩, rfl, ?_, ?_⟩
  · refine ⟨f.Metrics.map (fun m => { Value := m.Value, LabelValues := projected m names }),
      ?_, ?_⟩
    · simp only [ByLabels, Family.Inspect]
      rw [byLabels_loop_eq names f.Metrics hle []]
      simp
    · intro r hr
      obtain ⟨m, _, rfl⟩ := List.mem_map.mp hr
      simp [ByLabels, projected_length]
  · intro rows hrows r hr
    cases obj with
    | plain payload => simp [ByNamespaceAndOwner] at hrows
    | accessor objectMeta =>
      simp only [ByNamespaceAndOwner, Family.Inspect] at hrows
      rw [outer_eq labels _ f.Metrics hle []] at hrows
      simp only [List.nil_append, Except.ok.injEq] at hrows
      subst hrows
      obtain ⟨m, _, hr1⟩ := List.mem_flatMap.mp hr
      obtain ⟨s, hs, rfl⟩ := List.mem_map.mp hr1
      have h4 := labelSets_length _ _ s hs
      simp [ByNamespaceAndOwner, projected_length, h4]
      omega
  · intro objectMeta hobj
    subst hobj
    simp only [ByNamespaceAndOwner, Family.Inspect]
    rw [outer_eq labels _ f.Metrics hle []]
    exact ⟨_, rfl⟩

/-- C16, amended: on every object without the metadata accessor the `Aggregate`
function of `ByNamespaceAndOwner` panics at the unchecked type assertion
`obj.(metav1.ObjectMetaAccessor)`: it returns no rows and reports no error
value. -/
theorem ByNamespaceAndOwner_panics_without_accessor (labels : List String) (payload : String)
    (f : Family) :
    (ByNamespaceAndOwner labels).Aggregate (.plain payload) f = .error .typeAssertion :=
  rfl

/-- C16 as stated fails: on an object without the metadata accessor the outcome of
the `Aggregate` function of `ByNamespaceAndOwner("type")` is the panic of the
type assertion, not a returned value; the function has no error result to
report `MissingCapability` with. -/
theorem ByNamespaceAndOwner_no_reported_error :
    (ByNamespaceAndOwner ["type"]).Aggregate (.plain "node") exampleFamily
      = .error .typeAssertion ∧
    ¬ ∃ rows, (ByNamespaceAndOwner ["type"]).Aggregate (.plain "node") exampleFamily
      = .ok rows := by
  refine ⟨rfl, ?_⟩
  rintro ⟨rows, hrows⟩
  cases hrows

/-- Witness of C15 on an object with two owners and the example family. -/
theorem aggregation_rows_match_schema_witness :
    ((ByLabels ["type"]).LabelNames = ["type"] ∧
      ∃ rows, (ByLabels ["type"]).Aggregate (.accessor exampleOwned) exampleFamily = .ok rows ∧
        ∀ r ∈ rows, r.LabelValues.length = (ByLabels ["type"]).LabelNames.length) ∧
    ((ByNamespaceAndOwner ["type"]).LabelNames
        = ["namespace", "owner_kind", "owner_name", "owner_is_controller"] ++ ["type"] ∧
      (∀ rows, (ByNamespaceAndOwner ["type"]).Aggregate (.accessor exampleOwned) exampleFamily
          = .ok rows →
        ∀ r ∈ rows,
          r.LabelValues.length = (ByNamespaceAndOwner ["type"]).LabelNames.length ∧
          r.LabelValues.length = 4 + ["type"].length) ∧
      ∀ objectMeta : ObjectMeta, Object.accessor exampleOwned = .accessor objectMeta →
        ∃ rows, (ByNamespaceAndOwner ["type"]).Aggregate (.accessor exampleOwned) exampleFamily
          = .ok rows) :=
  aggregation_rows_match_schema ["type"] ["type"] (.accessor exampleOwned) exampleFamily
    (by decide)

/-! ## Headers -/

/-- Assigning at the index right after `done` replaces the element there. -/
theorem GoSlice.assign_append {α : Type} (done : List α) (a x : α) (rest : List α) :
    GoSlice.assign (done ++ a :: rest) done.length x = .ok (done ++ x :: rest) := by
  induction done with
  | nil => simp [GoSlice.assign]
  | cons d done ih => simp [GoSlice.assign, ih]

/-- The loop of `ExtractMetricFamilyHeaders` fills the slots still empty, in order. -/
theorem headers_loop_eq (fs : List FamilyGenerator) (done : List String) :
    ExtractMetricFamilyHeaders.loop fs done.length (done ++ List.replicate fs.length "")
      = .ok (done ++ fs.map (fun f => f.generateHeader)) := by
  induction fs generalizing done with
  | nil => simp [ExtractMetricFamilyHeaders.loop]
  | cons f fs ih =>
    simp only [ExtractMetricFamilyHeaders.loop, List.length_cons, List.replicate_succ,
      GoSlice.assign_append]
    have h := ih (done ++ [f.generateHeader])
    simp only [List.length_append, List.length_singleton, List.append_assoc,
      List.singleton_append] at h
    rw [h]
    simp

/-- The header of a generator, as one string. -/
theorem generateHeader_eq (g : FamilyGenerator) :
    g.generateHeader
      = "# HELP " ++ g.Name ++ " " ++ g.Help ++ "\n" ++ "# TYPE " ++ g.Name ++ " " ++ g.Type_ := by
  apply String.ext
  simp [FamilyGenerator.generateHeader, String.data_append, String.data_push]

/-- C12: `ExtractMetricFamilyHeaders` returns one header per generator, in
generator order; the `i`-th header is the line `# HELP <name> <help>`, one
newline, and the line `# TYPE <name> <type>`, and generators that agree on
name, help and type have the same header. -/
theorem ExtractMetricFamilyHeaders_one_header_per_generator (families : List FamilyGenerator) :
    ∃ headers, ExtractMetricFamilyHeaders families = .ok headers ∧
      headers.length = families.length ∧
      (∀ (i : Nat) (g : FamilyGenerator), families[i]? = some g →
        headers[i]? = some
          ("# HELP " ++ g.Name ++ " " ++ g.Help ++ "\n" ++ "# TYPE " ++ g.Name ++ " " ++ g.Type_)) ∧
      ∀ g1 g2 : FamilyGenerator, g1.Name = g2.Name → g1.Help = g2.Help → g1.Type_ = g2.Type_ →
        g1.generateHeader = g2.generateHeader := by
  have h := headers_loop_eq families []
  simp only [List.length_nil, List.nil_append] at h
  refine ⟨_, h, by simp, ?_, ?_⟩
  · intro i g hi
    simp [List.getElem?_map, hi, generateHeader_eq]
  · intro g1 g2 hn hh ht
    rw [generateHeader_eq, generateHeader_eq, hn, hh, ht]

/-! ## The metrics store -/

/-- After `m[k] = v` the map holds the entry `(k, v)`. -/
theorem GoMap.new_mem_set {V : Type} (m : List (String × V)) (k : String) (v : V) :
    (k, v) ∈ GoMap.set m k v := by
  induction m with
  | nil => simp [GoMap.set]
  | cons q m ih =>
    obtain ⟨k1, v1⟩ := q
    simp only [GoMap.set]
    split
    · exact List.mem_cons_self _ _
    · exact List.mem_cons_of_mem _ ih

/-- The assignment `m[k] = v` keeps the entries of other keys. -/
theorem GoMap.other_mem_set {V : Type} (m : List (String × V)) (k : String) (v : V)
    (q : String × V) (hq : q ∈ m) (hk : q.1 ≠ k) : q ∈ GoMap.set m k v := by
  induction m with
  | nil => cases hq
  | cons r m ih =>
    obtain ⟨k1, v1⟩ := r
    simp only [GoMap.set]
    rcases List.mem_cons.mp hq with h | h
    · subst h
      rw [if_neg hk]
      exact List.mem_cons_self _ _
    · split
      · exact List.mem_cons_of_mem _ h
      · exact List.mem_cons_of_mem _ (ih h)

/-- Metrics with as many values as keys pass the validation of `Add`. -/
theorem wellFormed_of (families : List Family)
    (h : ∀ fam ∈ families, ∀ m ∈ fam.Metrics, m.LabelKeys.length = m.LabelValues.length) :
    MetricsStore.wellFormed families = true := by
  simp only [MetricsStore.wellFormed, List.all_eq_true, beq_iff_eq]
  exact h

/-- `Add` succeeds on a valid generation and stores the rendering under the identity. -/
theorem Add_ok (s : MetricsStore) (identity : String) (obj : Object) (families : List Family)
    (hgen : s.generateFunc obj = .ok families)
    (hwf : MetricsStore.wellFormed families = true) :
    s.Add identity obj
      = .ok { s with metrics := GoMap.set s.metrics identity (s.render obj families) } := by
  simp [MetricsStore.Add, hgen, hwf]

/-- A metric line stored for generator `i` is written, unless the generator is
aggregated-only. -/
theorem WriteAll_raw_mem (suffix : String → String) (s : MetricsStore) (i : Nat)
    (e : String × StoreEntry) (line : ExpositionLine)
    (hi : i < s.headers.length) (hraw : s.aggregatedOnly.getD i false = false)
    (he : e ∈ s.metrics) (hline : line ∈ e.2.raw.getD i []) :
    line ∈ s.WriteAll suffix := by
  simp only [MetricsStore.WriteAll, List.mem_flatMap, List.mem_range]
  refine ⟨i, hi, ?_⟩
  simp only [MetricsStore.generatorLines, hraw, Bool.false_eq_true, if_false, List.mem_append]
  exact Or.inl (Or.inr (List.mem_flatMap.mpr ⟨e, he, hline⟩))

/-- The rendering holds one metric line per metric of the family of generator `i`. -/
theorem render_raw_mem (s : MetricsStore) (obj : Object) (families : List Family) (i : Nat)
    (fam : Family) (m : Metric) (hfam : families[i]? = some fam) (hm : m ∈ fam.Metrics) :
    ExpositionLine.sample fam.Name (m.LabelKeys.zip m.LabelValues) m.Value
      ∈ (s.render obj families).raw.getD i [] := by
  simp only [MetricsStore.render, List.getD_eq_getElem?_getD, List.getElem?_map, hfam,
    Option.map_some', Option.getD_some]
  exact List.mem_map.mpr ⟨m, hm, rfl⟩

/-- C17: two objects with distinct identities, both with a valid generation, are
added one after the other; for a generator that is not aggregated-only, the
lines `WriteAll` then emits contain the metric line of every metric of the
first object and of every metric of the second one: the second `Add` neither
replaces nor drops the lines of the first. -/
theorem WriteAll_keeps_both_objects (suffix : String → String) (s0 : MetricsStore)
    (id1 id2 : String) (obj1 obj2 : Object) (fams1 fams2 : List Family) (i : Nat)
    (hid : id1 ≠ id2)
    (hgen1 : s0.generateFunc obj1 = .ok fams1)
    (hwf1 : ∀ fam ∈ fams1, ∀ m ∈ fam.Metrics, m.LabelKeys.length = m.LabelValues.length)
    (hgen2 : s0.generateFunc obj2 = .ok fams2)
    (hwf2 : ∀ fam ∈ fams2, ∀ m ∈ fam.Metrics, m.LabelKeys.length = m.LabelValues.length)
    (hi : i < s0.headers.length)
    (hraw : s0.aggregatedOnly.getD i false = false) :
    ∃ s1 s2, s0.Add id1 obj1 = .ok s1 ∧ s1.Add id2 obj2 = .ok s2 ∧
      (∀ (fam : Family) (m : Metric), fams1[i]? = some fam → m ∈ fam.Metrics →
        ExpositionLine.sample fam.Name (m.LabelKeys.zip m.LabelValues) m.Value
          ∈ s2.WriteAll suffix) ∧
      (∀ (fam : Family) (m : Metric), fams2[i]? = some fam → m ∈ fam.Metrics →
        ExpositionLine.sample fam.Name (m.LabelKeys.zip m.LabelValues) m.Value
          ∈ s2.WriteAll suffix) := by
  have h1 := Add_ok s0 id1 obj1 fams1 hgen1 (wellFormed_of fams1 hwf1)
  have h2 := Add_ok
    { s0 with metrics := GoMap.set s0.metrics id1 (s0.render obj1 fams1) } id2 obj2 fams2
    hgen2 (wellFormed_of fams2 hwf2)
  refine ⟨_, _, h1, h2, ?_, ?_⟩
  · intro fam m hfam hm
    refine WriteAll_raw_mem suffix _ i (id1, s0.render obj1 fams1) _ hi hraw ?_
      (render_raw_mem s0 obj1 fams1 i fam m hfam hm)
    exact GoMap.other_mem_set _ id2 _ _ (GoMap.new_mem_set _ id1 _) hid
  · intro fam m hfam hm
    refine WriteAll_raw_mem suffix _ i
      (id2, MetricsStore.render
        { s0 with metrics := GoMap.set s0.metrics id1 (s0.render obj1 fams1) } obj2 fams2)
      _ hi hraw ?_ (render_raw_mem _ obj2 fams2 i fam m hfam hm)
    exact GoMap.new_mem_set _ id2 _

/-- Witness of C17: the services `a` and `b` of
`TestObjectsSameNameDifferentNamespaces`. -/
theorem WriteAll_keeps_both_objects_witness :
    ∃ s1 s2, testStore.Add "a" (testService "a") = .ok s1 ∧
      s1.Add "b" (testService "b") = .ok s2 ∧
      (∀ (fam : Family) (m : Metric),
        [({ Name := "kube_service_info", Help := "", Type_ := "",
            Metrics := [{ LabelKeys := ["uid"], LabelValues := ["a"],
                          Value := ⟨4607182418800017408⟩ }] } : Family)][0]? = some fam →
        m ∈ fam.Metrics →
        ExpositionLine.sample fam.Name (m.LabelKeys.zip m.LabelValues) m.Value
          ∈ s2.WriteAll exampleSuffix) ∧
      (∀ (fam : Family) (m : Metric),
        [({ Name := "kube_service_info", Help := "", Type_ := "",
            Metrics := [{ LabelKeys := ["uid"], LabelValues := ["b"],
                          Value := ⟨4607182418800017408⟩ }] } : Family)][0]? = some fam →
        m ∈ fam.Metrics →
        ExpositionLine.sample fam.Name (m.LabelKeys.zip m.LabelValues) m.Value
          ∈ s2.WriteAll exampleSuffix) :=
  WriteAll_keeps_both_objects exampleSuffix testStore "a" "b" (testService "a") (testService "b")
    _ _ 0 (by decide) rfl (by decide) rfl (by decide) (by decide) rfl

/-- `AddAll` on objects whose generation is valid: it succeeds, keeps the
configuration of the store, and the entries afterwards are the old ones or
renderings of the added objects; with pairwise distinct identities every added
object has its entry. -/
theorem AddAll_spec (objs : List (String × Object)) (s : MetricsStore)
    (hgen : ∀ p ∈ objs, ∃ fams, s.generateFunc p.2 = .ok fams ∧
      MetricsStore.wellFormed fams = true) :
    ∃ s1, s.AddAll objs = .ok s1 ∧
      s1.headers = s.headers ∧ s1.generateFunc = s.generateFunc ∧
      s1.aggregatedOnly = s.aggregatedOnly ∧ s1.aggregations = s.aggregations ∧
      (∀ e ∈ s1.metrics, e ∈ s.metrics ∨
        ∃ p ∈ objs, ∃ fams, s.generateFunc p.2 = .ok fams ∧ e = (p.1, s.render p.2 fams)) ∧
      ((objs.map Prod.fst).Nodup → ∀ p ∈ objs, ∀ fams, s.generateFunc p.2 = .ok fams →
        (p.1, s.render p.2 fams) ∈ s1.metrics) ∧
      (∀ e ∈ s.metrics, e.1 ∉ objs.map Prod.fst → e ∈ s1.metrics) := by
  induction objs generalizing s with
  | nil =>
    refine ⟨s, rfl, rfl, rfl, rfl, rfl, fun e he => Or.inl he, ?_, fun e he _ => he⟩
    intro _ p hp
    cases hp
  | cons p objs ih =>
    obtain ⟨fams, hg, hwf⟩ := hgen p (List.mem_cons_self _ _)
    have hadd := Add_ok s p.1 p.2 fams hg hwf
    obtain ⟨s1, h1, c1, c2, c3, c4, m1, m2, m3⟩ :=
      ih { s with metrics := GoMap.set s.metrics p.1 (s.render p.2 fams) }
        (fun q hq => hgen q (List.mem_cons_of_mem _ hq))
    refine ⟨s1, ?_, c1, c2, c3, c4, ?_, ?_, ?_⟩
    · simp only [MetricsStore.AddAll, hadd]
      exact h1
    · intro e he
      rcases m1 e he with h | ⟨q, hq, fq, hfq, heq⟩
      · rcases GoMap.mem_set _ _ _ _ h with h' | h'
        · exact Or.inl h'
        · exact Or.inr ⟨p, List.mem_cons_self _ _, fams, hg, h'⟩
      · exact Or.inr ⟨q, List.mem_cons_of_mem _ hq, fq, hfq, heq⟩
    · intro hnd q hq fq hfq
      simp only [List.map_cons, List.nodup_cons] at hnd
      rcases List.mem_cons.mp hq with h | h
      · subst h
        rw [hg] at hfq
        cases hfq
        exact m3 _ (GoMap.new_mem_set _ _ _) hnd.1
      · exact m2 hnd.2 q h fq hfq
    · intro e he hne
      simp only [List.map_cons, List.mem_cons, not_or] at hne
      exact m3 e (GoMap.other_mem_set _ _ _ e he hne.1) hne.2

/-- On a metric with the keys `uid`, `type` and two values, the projection on
`type` is the second value. -/
theorem projected_type (m : Metric) (hk : m.LabelKeys = ["uid", "type"])
    (hv : m.LabelValues.length = 2) :
    ∃ u tv, m.LabelValues = [u, tv] ∧ projected m ["type"] = [tv] := by
  match hvals : m.LabelValues, hv with
  | [u, tv], _ =>
    refine ⟨u, tv, rfl, ?_⟩
    simp [projected, hk, hvals, matched]

/-- The rows an object contributes to the `type` aggregation of an aggregated-only
store: one per metric, tagged with generator 0 and the aggregation name, and
carrying the metric's type value as its only label value. -/
theorem render_type_rows (s : MetricsStore) (name help type : String) (obj : Object)
    (fam : Family)
    (hagg : s.aggregations
      = [(0, NewAggregationSet [("type", ByLabels ["type"])] name help type)])
    (hfam : ∀ m ∈ fam.Metrics, m.LabelKeys = ["uid", "type"] ∧ m.LabelValues.length = 2) :
    (s.render obj [fam]).aggregated
      = fam.Metrics.map (fun m =>
          (0, "type", { Value := m.Value, LabelValues := projected m ["type"] })) := by
  have hle : ∀ m ∈ fam.Metrics, m.LabelKeys.length ≤ m.LabelValues.length := by
    intro m hm
    obtain ⟨h1, h2⟩ := hfam m hm
    rw [h1, h2]
    decide
  simp only [MetricsStore.render, hagg, NewAggregationSet, List.flatMap_cons, List.flatMap_nil,
    List.append_nil, List.getElem?_cons_zero, ByLabels, Family.Inspect]
  rw [byLabels_loop_eq ["type"] fam.Metrics hle []]
  simp [List.map_map, Function.comp]

/-- C18: a store with one aggregated-only generator carrying the aggregation
`ByLabels("type")` under the name `type`, and objects with pairwise distinct
identities whose metrics have the label keys `uid`, `type`: every `Add`
succeeds, every line `WriteAll` emits is a header or an aggregated line whose
only label is `type` (so there is no raw metric line and no `uid` label), and
for every metric of every added object there is an aggregated line with that
metric's type value. -/
theorem WriteAll_aggregated_only (suffix : String → String) (header name help type : String)
    (generateFunc : Object → Except StoreError (List Family))
    (objs : List (String × Object))
    (hnodup : (objs.map Prod.fst).Nodup)
    (hgen : ∀ p ∈ objs, ∃ fam, generateFunc p.2 = .ok [fam] ∧
      ∀ m ∈ fam.Metrics, m.LabelKeys = ["uid", "type"] ∧ m.LabelValues.length = 2) :
    ∃ s, (NewMetricsStore [header] generateFunc [true]
        [(0, NewAggregationSet [("type", ByLabels ["type"])] name help type)]).AddAll objs
        = .ok s ∧
      (∀ line ∈ s.WriteAll suffix,
        (∃ text, line = ExpositionLine.header text) ∨
        ∃ tv v, line = ExpositionLine.sample (name ++ suffix "type") [("type", tv)] v) ∧
      (∀ (n : String) (labels : List (String × String)) (v : Float64),
        ExpositionLine.sample n labels v ∈ s.WriteAll suffix → ∀ p ∈ labels, p.1 ≠ "uid") ∧
      (∀ p ∈ objs, ∀ (fam : Family) (m : Metric), generateFunc p.2 = .ok [fam] →
        m ∈ fam.Metrics →
        ∃ u tv, m.LabelValues = [u, tv] ∧
          ExpositionLine.sample (name ++ suffix "type") [("type", tv)] m.Value
            ∈ s.WriteAll suffix) := by
  have hgen' : ∀ p ∈ objs, ∃ fams,
      (NewMetricsStore [header] generateFunc [true]
        [(0, NewAggregationSet [("type", ByLabels ["type"])] name help type)]).generateFunc p.2
        = .ok fams ∧ MetricsStore.wellFormed fams = true := by
    intro p hp
    obtain ⟨fam, hg, hk⟩ := hgen p hp
    refine ⟨[fam], hg, wellFormed_of _ ?_⟩
    intro f hf m hm
    simp only [List.mem_singleton] at hf
    subst hf
    obtain ⟨h1, h2⟩ := hk m hm
    rw [h1, h2]
    rfl
  obtain ⟨s, hs, c1, c2, c3, c4, m1, m2, _⟩ := AddAll_spec objs _ hgen'
  simp only [NewMetricsStore] at c1 c2 c3 c4 m1 m2
  -- the lines written for the one generator
  have hlines : ∀ line, line ∈ s.WriteAll suffix ↔
      (line = ExpositionLine.header header ∨
        line = ExpositionLine.header
          ("# HELP " ++ (name ++ suffix "type") ++ " " ++ help ++ "\n"
            ++ "# TYPE " ++ (name ++ suffix "type") ++ " " ++ type) ∨
        ∃ e ∈ s.metrics, ∃ t ∈ e.2.aggregated, t.1 = 0 ∧ t.2.1 = "type" ∧
          line = ExpositionLine.sample (name ++ suffix "type")
            (["type"].zip t.2.2.LabelValues) t.2.2.Value) := by
    intro line
    have hW : s.WriteAll suffix
        = ExpositionLine.header header
          :: ExpositionLine.header
              ("# HELP " ++ (name ++ suffix "type") ++ " " ++ help ++ "\n"
                ++ "# TYPE " ++ (name ++ suffix "type") ++ " " ++ type)
          :: s.metrics.flatMap (fun e =>
              (e.2.aggregated.filter (fun t => t.1 == 0 && t.2.1 == "type")).map (fun t =>
                ExpositionLine.sample (name ++ suffix "type")
                  (["type"].zip t.2.2.LabelValues) t.2.2.Value)) := by
      have hr : List.range 1 = [0] := rfl
      simp [MetricsStore.WriteAll, c1, hr, MetricsStore.generatorLines, c3, c4,
        NewAggregationSet, MetricsStore.aggregatedLines, ByLabels]
    rw [hW]
    simp only [List.mem_cons, List.mem_flatMap, List.mem_map, List.mem_filter,
      Bool.and_eq_true, beq_iff_eq]
    constructor
    · rintro (h | h | ⟨e, he, t, ⟨ht, h0, h1⟩, rfl⟩)
      · exact Or.inl h
      · exact Or.inr (Or.inl h)
      · exact Or.inr (Or.inr ⟨e, he, t, ht, h0, h1, rfl⟩)
    · rintro (h | h | ⟨e, he, t, ht, h0, h1, rfl⟩)
      · exact Or.inl h
      · exact Or.inr (Or.inl h)
      · exact Or.inr (Or.inr ⟨e, he, t, ⟨ht, h0, h1⟩, rfl⟩)
  -- every stored row carries exactly the type value of one metric
  have hrows : ∀ e ∈ s.metrics, ∀ t ∈ e.2.aggregated,
      ∃ tv, t.2.2.LabelValues = [tv] := by
    intro e he t ht
    rcases m1 e he with h | ⟨p, hp, fams, hfams, rfl⟩
    · cases h
    · obtain ⟨fam, hg, hk⟩ := hgen p hp
      rw [hg] at hfams
      cases hfams
      rw [render_type_rows _ name help type p.2 fam rfl hk] at ht
      obtain ⟨m, hm, rfl⟩ := List.mem_map.mp ht
      obtain ⟨u, tv, _, hproj⟩ := projected_type m (hk m hm).1 (hk m hm).2
      exact ⟨tv, hproj⟩
  have hshape : ∀ line ∈ s.WriteAll suffix,
      (∃ text, line = ExpositionLine.header text) ∨
      ∃ tv v, line = ExpositionLine.sample (name ++ suffix "type") [("type", tv)] v := by
    intro line hline
    rcases (hlines line).mp hline with h | h | ⟨e, he, t, ht, _, _, rfl⟩
    · exact Or.inl ⟨_, h⟩
    · exact Or.inl ⟨_, h⟩
    · obtain ⟨tv, htv⟩ := hrows e he t ht
      exact Or.inr ⟨tv, t.2.2.Value, by simp [htv]⟩
  refine ⟨s, hs, hshape, ?_, ?_⟩
  · intro n labels v hmem q hq
    rcases hshape _ hmem with ⟨text, h⟩ | ⟨tv, v1, h⟩
    · cases h
    · cases h
      simp only [List.mem_singleton] at hq
      rw [hq]
      show "type" ≠ "uid"
      decide
  · intro p hp fam m hg hm
    obtain ⟨fam1, hg1, hk⟩ := hgen p hp
    rw [hg] at hg1
    cases hg1
    obtain ⟨u, tv, hvals, hproj⟩ := projected_type m (hk m hm).1 (hk m hm).2
    refine ⟨u, tv, hvals, (hlines _).mpr (Or.inr (Or.inr ?_))⟩
    refine ⟨(p.1, MetricsStore.render _ p.2 [fam]), m2 hnodup p hp [fam] hg,
      (0, "type", { Value := m.Value, LabelValues := projected m ["type"] }), ?_, rfl, rfl, ?_⟩
    · rw [render_type_rows _ name help type p.2 fam rfl hk]
      exact List.mem_map.mpr ⟨m, hm, rfl⟩
    · simp [hproj]

/-- Witness of C18: the four services of `TestAggregations`, two namespaces
crossed with two types. -/
theorem WriteAll_aggregated_only_witness :
    ∃ s, (NewMetricsStore ["Information about service."] testTypedGenFunc [true]
        [(0, NewAggregationSet [("type", ByLabels ["type"])] "kube_service_info"
          "Information about service." "gauge")]).AddAll
        [("aClusterIP", testTypedService "a" "ClusterIP"),
         ("aNodePort", testTypedService "a" "NodePort"),
         ("bClusterIP", testTypedService "b" "ClusterIP"),
         ("bNodePort", testTypedService "b" "NodePort")]
        = .ok s ∧
      (∀ line ∈ s.WriteAll exampleSuffix,
        (∃ text, line = ExpositionLine.header text) ∨
        ∃ tv v, line
          = ExpositionLine.sample ("kube_service_info" ++ exampleSuffix "type") [("type", tv)] v) ∧
      (∀ (n : String) (labels : List (String × String)) (v : Float64),
        ExpositionLine.sample n labels v ∈ s.WriteAll exampleSuffix →
        ∀ p ∈ labels, p.1 ≠ "uid") ∧
      (∀ p ∈ [("aClusterIP", testTypedService "a" "ClusterIP"),
              ("aNodePort", testTypedService "a" "NodePort"),
              ("bClusterIP", testTypedService "b" "ClusterIP"),
              ("bNodePort", testTypedService "b" "NodePort")],
        ∀ (fam : Family) (m : Metric), testTypedGenFunc p.2 = .ok [fam] →
        m ∈ fam.Metrics →
        ∃ u tv, m.LabelValues = [u, tv] ∧
          ExpositionLine.sample ("kube_service_info" ++ exampleSuffix "type") [("type", tv)]
            m.Value ∈ s.WriteAll exampleSuffix) :=
  WriteAll_aggregated_only exampleSuffix "Information about service." "kube_service_info"
    "Information about service." "gauge" testTypedGenFunc
    [("aClusterIP", testTypedService "a" "ClusterIP"),
     ("aNodePort", testTypedService "a" "NodePort"),
     ("bClusterIP", testTypedService "b" "ClusterIP"),
     ("bNodePort", testTypedService "b" "NodePort")]
    (by decide)
    (by
      intro p hp
      simp only [List.mem_cons, List.mem_singleton, List.not_mem_nil, or_false] at hp
      rcases hp with rfl | rfl | rfl | rfl <;>
        exact ⟨_, rfl, by intro m hm; simp only [List.mem_singleton] at hm; subst hm; exact ⟨rfl, rfl⟩⟩)


/-! ## Composition through the family pointers -/

/-- `Generate` leaves at the returned address the transform's family with the
generator's name and type, and changes no other family object. -/
theorem Generate_ref_eq (g : FamilyGeneratorRef) (heap : GoHeap (Option Family)) (obj : Object) :
    g.Generate heap obj
      = (heap.write (g.GenerateFunc obj).1
          (some { (g.GenerateFunc obj).2 with Name := g.Name, Type_ := g.Type_ }),
         (g.GenerateFunc obj).1) := by
  simp only [FamilyGeneratorRef.Generate, Prod.mk.injEq, and_true]
  funext b
  by_cases hb : b = (g.GenerateFunc obj).1 <;> simp [GoHeap.write, hb]

/-- The loop of the composed function: the pointers of the generators fill the
slots in order, and when the family objects are pairwise distinct each of them
ends with its own generator's name and type. -/
theorem compose_loop_spec (obj : Object) (rest done : List FamilyGeneratorRef)
    (heap : GoHeap (Option Family))
    (hdone : ∀ g ∈ done, heap (g.GenerateFunc obj).1
      = some { (g.GenerateFunc obj).2 with Name := g.Name, Type_ := g.Type_ })
    (hnodup : ((done ++ rest).map (fun g => (g.GenerateFunc obj).1)).Nodup) :
    ∃ heap1, ComposeMetricGenFuncs.loop obj rest done.length heap
        (done.map (fun g => some (g.GenerateFunc obj).1) ++ List.replicate rest.length none)
        = .ok (heap1, (done ++ rest).map (fun g => some (g.GenerateFunc obj).1)) ∧
      ∀ g ∈ done ++ rest, heap1 (g.GenerateFunc obj).1
        = some { (g.GenerateFunc obj).2 with Name := g.Name, Type_ := g.Type_ } := by
  induction rest generalizing done heap with
  | nil =>
    refine ⟨heap, by simp [ComposeMetricGenFuncs.loop], ?_⟩
    simpa using hdone
  | cons g rest ih =>
    have hassign := GoSlice.assign_append
      (done.map (fun g => some (g.GenerateFunc obj).1)) none (some (g.GenerateFunc obj).1)
      (List.replicate rest.length none)
    simp only [List.length_map] at hassign
    simp only [ComposeMetricGenFuncs.loop, Generate_ref_eq, List.length_cons,
      List.replicate_succ, hassign]
    have hnodup' : (((done ++ [g]) ++ rest).map (fun g => (g.GenerateFunc obj).1)).Nodup := by
      simpa using hnodup
    have hdone' : ∀ d ∈ done ++ [g],
        (heap.write (g.GenerateFunc obj).1
          (some { (g.GenerateFunc obj).2 with Name := g.Name, Type_ := g.Type_ }))
          (d.GenerateFunc obj).1
        = some { (d.GenerateFunc obj).2 with Name := d.Name, Type_ := d.Type_ } := by
      intro d hd
      rcases List.mem_append.mp hd with h | h
      · have hne : (d.GenerateFunc obj).1 ≠ (g.GenerateFunc obj).1 := by
          intro heq
          simp only [List.map_append, List.map_cons, List.nodup_append] at hnodup
          exact hnodup.2.2 (List.mem_map.mpr ⟨d, h, rfl⟩)
            (by rw [heq]; exact List.mem_cons_self _ _)
        simp only [GoHeap.write, hne, if_false]
        exact hdone d h
      · simp only [List.mem_singleton] at h
        subst h
        simp [GoHeap.write]
    obtain ⟨heap1, h1, h2⟩ := ih (done ++ [g]) _ hdone' hnodup'
    simp only [List.length_append, List.length_singleton, List.map_append, List.map_cons,
      List.map_nil, List.append_assoc, List.singleton_append] at h1 h2
    refine ⟨heap1, by simpa using h1, ?_⟩
    intro d hd
    exact h2 d (by simpa using hd)

/-- C11, amended: when the transforms of the generators hand out pairwise distinct
family objects for the object, the function returned by
`ComposeMetricGenFuncs` yields `len(generators)` families, in generator order;
the `i`-th one is the family object `generators[i].Generate(obj)` returns, and
it holds the transform's family with `generators[i]`'s name and type. -/
theorem ComposeMetricGenFuncs_distinct_families (familyGens : List FamilyGeneratorRef)
    (obj : Object)
    (hdistinct : (familyGens.map (fun g => (g.GenerateFunc obj).1)).Nodup) :
    ∃ heap families, ComposeMetricGenFuncs familyGens obj = .ok (heap, families) ∧
      families.length = familyGens.length ∧
      ∀ (i : Nat) (g : FamilyGeneratorRef), familyGens[i]? = some g →
        families[i]? = some (some (g.GenerateFunc obj).1) ∧
        heap (g.GenerateFunc obj).1
          = some { (g.GenerateFunc obj).2 with Name := g.Name, Type_ := g.Type_ } := by
  obtain ⟨heap, h1, h2⟩ := compose_loop_spec obj familyGens [] (fun _ => none)
    (by intro g hg; cases hg) (by simpa using hdistinct)
  simp only [List.length_nil, List.map_nil, List.nil_append] at h1 h2
  refine ⟨heap, _, h1, by simp, ?_⟩
  intro i g hi
  exact ⟨by simp [List.getElem?_map, hi], h2 g (mem_of_getElem_opt _ i g hi)⟩

/-- Witness of the amended C11: `x` and `z` hand out the family objects at the
addresses 0 and 1. -/
theorem ComposeMetricGenFuncs_distinct_families_witness :
    ([generatorX, generatorZ].map (fun g => (g.GenerateFunc (.plain "")).1)).Nodup ∧
    ∃ heap families, ComposeMetricGenFuncs [generatorX, generatorZ] (.plain "")
        = .ok (heap, families) ∧
      families.length = [generatorX, generatorZ].length ∧
      ∀ (i : Nat) (g : FamilyGeneratorRef), [generatorX, generatorZ][i]? = some g →
        families[i]? = some (some (g.GenerateFunc (.plain "")).1) ∧
        heap (g.GenerateFunc (.plain "")).1
          = some { (g.GenerateFunc (.plain "")).2 with Name := g.Name, Type_ := g.Type_ } :=
  ⟨by decide,
    ComposeMetricGenFuncs_distinct_families [generatorX, generatorZ] (.plain "") (by decide)⟩

/-- C11 as stated fails: `x` and `y` hand out the same family object; both entries
of the composed result point to it, and it carries the name and type of `y`,
the last generator that wrote them, so the family at index 0 does not carry the
name and type of generator 0. -/
theorem ComposeMetricGenFuncs_shared_family :
    ∃ heap families, ComposeMetricGenFuncs [generatorX, generatorY] (.plain "") = .ok (heap, families) ∧
      families = [some 0, some 0] ∧
      generatorX.Name = "x" ∧ generatorX.Type_ = "gauge" ∧
      (heap 0).map (fun family => (family.Name, family.Type_)) = some ("y", "counter") :=
  ⟨_, _, rfl, rfl, rfl, rfl, rfl⟩

/-! ## Filtering through the map references -/

/-- Reading back what was just written. -/
theorem GoHeap.write_same {α : Type} (heap : GoHeap α) (a : Nat) (x : α) :
    (heap.write a x) a = x := by
  simp [GoHeap.write]

/-- A write leaves the objects at other addresses as they are. -/
theorem GoHeap.write_other {α : Type} (heap : GoHeap α) (a b : Nat) (x : α) (h : b ≠ a) :
    (heap.write a x) b = heap b := by
  simp [GoHeap.write, h]

/-- A second write at the same address replaces the first. -/
theorem GoHeap.write_write {α : Type} (heap : GoHeap α) (a : Nat) (x y : α) :
    (heap.write a x).write a y = heap.write a y := by
  funext b
  by_cases hb : b = a <;> simp [GoHeap.write, hb]

/-- The pruning loop on the map objects rewrites the one map the generator refers
to, with the conditional deletes folded over the names. -/
theorem prune_ref_eq (l : whiteBlackLister) (g : FamilyGeneratorRef) (a : Nat)
    (ha : g.AggregateBy = some a) (names : List (String × String))
    (maps : GoHeap (List (String × Aggregation))) :
    FamilyGeneratorRef.filterAggregations.prune l g (some names) maps
      = maps.write a
          (names.foldl (fun m p => if l.IsExcluded p.2 then GoMap.delete m p.1 else m) (maps a)) := by
  induction names generalizing maps with
  | nil =>
    funext b
    by_cases hb : b = a <;> simp [FamilyGeneratorRef.filterAggregations.prune, GoHeap.write, hb]
  | cons p names ih =>
    have hstep : FamilyGeneratorRef.filterAggregations.prune l g (some (p :: names)) maps
        = FamilyGeneratorRef.filterAggregations.prune l g (some names)
            (if l.IsExcluded p.2 then g.deleteAggregation maps p.1 else maps) := by
      simp [FamilyGeneratorRef.filterAggregations.prune]
    rw [hstep, ih]
    cases hx : l.IsExcluded p.2
    · simp [hx]
    · simp [hx, FamilyGeneratorRef.deleteAggregation, ha, GoHeap.write_write, GoHeap.write_same]

/-- One call of `filterAggregations` through the references agrees with the call on
the struct and the map contents it sees: same struct afterwards (read through
the map objects after the call), same boolean; the map object the generator
refers to holds the kept aggregations, every other map object is untouched. -/
theorem filterAggregations_ref_deref (suffix : String → String) (l : whiteBlackLister)
    (maps : GoHeap (List (String × Aggregation))) (g : FamilyGeneratorRef) :
    (g.filterAggregations suffix l maps).2.1.deref (g.filterAggregations suffix l maps).1
      = ((g.deref maps).filterAggregations suffix l).1 ∧
    (g.filterAggregations suffix l maps).2.2 = ((g.deref maps).filterAggregations suffix l).2 ∧
    (∀ a, g.AggregateBy = some a →
      (g.filterAggregations suffix l maps).1 a = (g.deref maps).kept suffix l) ∧
    (∀ b, g.AggregateBy ≠ some b → (g.filterAggregations suffix l maps).1 b = maps b) := by
  rw [filterAggregations_eq]
  cases g with
  | mk n h t f a o =>
    cases a with
    | none =>
      cases hx : l.IsExcluded n <;>
        simp [FamilyGeneratorRef.filterAggregations, FamilyGeneratorRef.aggregatedMetricNames,
          FamilyGeneratorRef.filterAggregations.prune, FamilyGeneratorRef.deref, GoMap.len,
          FamilyGenerator.kept, FamilyGenerator.attached, hx]
    | some a =>
      have hfold :
          (List.foldl (fun m p => if l.IsExcluded p.2 then GoMap.delete m p.1 else m) (maps a)
            (List.foldl (fun names e => GoMap.set names e.1 (n ++ suffix e.1)) [] (maps a)))
          = (maps a).filter (fun e => !l.IsExcluded (n ++ suffix e.1)) := by
        rw [fold_delete_eq, derived_filter_eq (fun k => n ++ suffix k) l (maps a)]
      have hkeptv : ∀ o1 : Bool, FamilyGenerator.kept suffix l
            (FamilyGeneratorRef.deref maps
              { Name := n, Help := h, Type_ := t, GenerateFunc := f, AggregateBy := some a,
                AggregationsOnly := o1 })
          = (maps a).filter (fun e => !l.IsExcluded (n ++ suffix e.1)) := by
        intro o1
        simp [FamilyGenerator.kept, FamilyGenerator.attached, FamilyGeneratorRef.deref,
          FamilyGenerator.derivedName]
      simp only [hkeptv]
      generalize hK : (maps a).filter (fun e => !l.IsExcluded (n ++ suffix e.1)) = K at hfold
      cases hx : l.IsExcluded n <;>
      · simp only [FamilyGeneratorRef.filterAggregations, FamilyGeneratorRef.aggregatedMetricNames,
          hx, Bool.false_eq_true, if_false, if_true]
        rw [prune_ref_eq l _ a rfl]
        simp only [Option.map_some', GoHeap.write_same, GoMap.len, hfold]
        cases K with
        | nil =>
          simp [FamilyGeneratorRef.deref, GoHeap.write_same, hx]
          intro b hb
          exact GoHeap.write_other _ _ _ _ (fun h => hb h.symm)
        | cons e K =>
          simp [FamilyGeneratorRef.deref, GoHeap.write_same, hx]
          intro b hb
          exact GoHeap.write_other _ _ _ _ (fun h => hb h.symm)

/-- What a struct shows through its references depends only on the map object it
refers to. -/
theorem deref_congr (m1 m2 : GoHeap (List (String × Aggregation))) (g : FamilyGeneratorRef)
    (h : ∀ a, g.AggregateBy = some a → m1 a = m2 a) : g.deref m1 = g.deref m2 := by
  cases g with
  | mk n hh t f a o =>
    cases a with
    | none => rfl
    | some a => simp [FamilyGeneratorRef.deref, h a rfl]

/-- After the call the struct refers to no map or to the map it referred to. -/
theorem filterAggregations_ref_address (suffix : String → String) (l : whiteBlackLister)
    (maps : GoHeap (List (String × Aggregation))) (g : FamilyGeneratorRef) (a : Nat)
    (h : (g.filterAggregations suffix l maps).2.1.AggregateBy = some a) :
    g.AggregateBy = some a := by
  have key : ∀ (c : Prop) [Decidable c] (x : FamilyGeneratorRef),
      (if c then { x with AggregateBy := none } else x).AggregateBy = some a →
      x.AggregateBy = some a := by
    intro c _ x hh
    by_cases hc : c
    · simp [hc] at hh
    · simpa [hc] using hh
  simp only [FamilyGeneratorRef.filterAggregations] at h
  by_cases hx : l.IsExcluded g.Name = true
  · simp only [hx, if_true] at h
    exact key _ { g with AggregationsOnly := true } h
  · simp only [hx, if_false] at h
    exact key _ g h

/-- The loop of `FilterMetricFamilies` from a state in which the generators still
to visit share no map object with each other nor with the visited ones: read
through the final map objects, the result is the accumulated structs followed
by the remaining generators filtered one by one on their own map contents. -/
theorem filter_loop_unshared (suffix : String → String) (l : whiteBlackLister)
    (rest : List FamilyGeneratorRef) (maps : GoHeap (List (String × Aggregation)))
    (acc : List FamilyGeneratorRef) (touched : List Nat)
    (hacc : ∀ d ∈ acc, ∀ a, d.AggregateBy = some a → a ∈ touched)
    (hrest : ∀ g ∈ rest, ∀ a, g.AggregateBy = some a → a ∉ touched)
    (hnodup : (rest.filterMap (fun g => g.AggregateBy)).Nodup) :
    ((rest.foldl
        (fun state f =>
          let r := f.filterAggregations suffix l state.1
          if r.2.2 then (r.1, state.2 ++ [r.2.1]) else (r.1, state.2))
        (maps, acc)).2.map
      (FamilyGeneratorRef.deref
        (rest.foldl
          (fun state f =>
            let r := f.filterAggregations suffix l state.1
            if r.2.2 then (r.1, state.2 ++ [r.2.1]) else (r.1, state.2))
          (maps, acc)).1))
      = acc.map (FamilyGeneratorRef.deref maps)
        ++ ((rest.map (FamilyGeneratorRef.deref maps)).filter
              (fun v => (v.filterAggregations suffix l).2)).map
            (fun v => (v.filterAggregations suffix l).1) := by
  induction rest generalizing maps acc touched with
  | nil => simp
  | cons g rest ih =>
    obtain ⟨h1, h2, _, h4⟩ := filterAggregations_ref_deref suffix l maps g
    -- the map objects after the call differ from `maps` at the address of `g` only
    have hacc_same : ∀ d ∈ acc,
        d.deref (g.filterAggregations suffix l maps).1 = d.deref maps := by
      intro d hd
      apply deref_congr
      intro a ha
      apply h4
      intro hg
      exact hrest g (List.mem_cons_self _ _) a hg (hacc d hd a ha)
    have hrest_same : ∀ d ∈ rest,
        d.deref (g.filterAggregations suffix l maps).1 = d.deref maps := by
      intro d hd
      apply deref_congr
      intro a ha
      apply h4
      intro hg
      rw [List.filterMap_cons, hg] at hnodup
      simp only [List.nodup_cons] at hnodup
      exact hnodup.1 (List.mem_filterMap.mpr ⟨d, hd, ha⟩)
    have hnodup' : (rest.filterMap (fun g => g.AggregateBy)).Nodup := by
      rw [List.filterMap_cons] at hnodup
      split at hnodup
      · exact hnodup
      · exact (List.nodup_cons.mp hnodup).2
    have hrest' : ∀ d ∈ rest, ∀ a, d.AggregateBy = some a →
        a ∉ (g.AggregateBy.toList ++ touched) := by
      intro d hd a ha hmem
      rcases List.mem_append.mp hmem with h | h
      · have hg : g.AggregateBy = some a := by
          cases hga : g.AggregateBy with
          | none => simp [hga] at h
          | some b => simp [hga] at h; rw [h]
        rw [List.filterMap_cons, hg] at hnodup
        simp only [List.nodup_cons] at hnodup
        exact hnodup.1 (List.mem_filterMap.mpr ⟨d, hd, ha⟩)
      · exact hrest d (List.mem_cons_of_mem _ hd) a ha h
    simp only [List.foldl_cons, List.map_cons, List.filter_cons]
    rw [← h2]
    cases hb : (g.filterAggregations suffix l maps).2.2
    · simp only [Bool.false_eq_true, if_false]
      rw [ih (g.filterAggregations suffix l maps).1 acc (g.AggregateBy.toList ++ touched)
        (fun d hd a ha => List.mem_append_right _ (hacc d hd a ha)) hrest' hnodup']
      rw [List.map_congr_left hacc_same, List.map_congr_left hrest_same]
    · simp only [if_true]
      rw [ih (g.filterAggregations suffix l maps).1
        (acc ++ [(g.filterAggregations suffix l maps).2.1]) (g.AggregateBy.toList ++ touched)
        ?_ hrest' hnodup']
      · rw [List.map_append, List.map_congr_left hacc_same, List.map_congr_left hrest_same]
        simp only [List.map_cons, List.map_nil, h1, List.append_assoc, List.singleton_append]
      · intro d hd a ha
        rcases List.mem_append.mp hd with h | h
        · exact List.mem_append_right _ (hacc d h a ha)
        · simp only [List.mem_singleton] at h
          subst h
          have := filterAggregations_ref_address suffix l maps g a ha
          exact List.mem_append_left _ (by simp [this])

/-- When no two generators share a map object, `FilterMetricFamilies` is the
filtering of every generator on its own map contents: read through the map
objects after the call, the result is the list of the generators for which
`filterAggregations` answers true, each as the call leaves it. -/
theorem FilterMetricFamilies_unshared (suffix : String → String) (l : whiteBlackLister)
    (maps : GoHeap (List (String × Aggregation))) (families : List FamilyGeneratorRef)
    (hown : (families.filterMap (fun g => g.AggregateBy)).Nodup) :
    (FilterMetricFamilies suffix l maps families).2.map
        (FamilyGeneratorRef.deref (FilterMetricFamilies suffix l maps families).1)
      = ((families.map (FamilyGeneratorRef.deref maps)).filter
            (fun v => (v.filterAggregations suffix l).2)).map
          (fun v => (v.filterAggregations suffix l).1) := by
  have h := filter_loop_unshared suffix l families maps [] []
    (by intro d hd; cases hd) (by intro g _ a _ hmem; cases hmem) hown
  simpa [FilterMetricFamilies] using h

/-- For a generator whose flag starts false, the boolean of `filterAggregations` is
the survival condition. -/
theorem survives_eq (suffix : String → String) (l : whiteBlackLister) (g : FamilyGenerator)
    (hflag : g.AggregationsOnly = false) :
    (g.filterAggregations suffix l).2 = g.survives suffix l := by
  rw [filterAggregations_eq]
  simp only [hflag, Bool.or_false, FamilyGenerator.survives, FamilyGenerator.kept]
  congr 1
  rw [Bool.eq_iff_iff]
  simp [List.isEmpty_iff, List.filter_eq_nil_iff]

/-- The aggregations attached after `filterAggregations` are the kept ones. -/
theorem attached_after_filterAggregations (suffix : String → String) (l : whiteBlackLister)
    (g : FamilyGenerator) :
    (g.filterAggregations suffix l).1.attached = g.kept suffix l := by
  rw [filterAggregations_eq]
  cases hk : (g.kept suffix l).isEmpty
  · simp [FamilyGenerator.attached]
  · simp [FamilyGenerator.attached, (List.isEmpty_iff.mp hk)]

/-- Filtering a generator a second time changes nothing and answers the same. -/
theorem filterAggregations_idem (suffix : String → String) (l : whiteBlackLister)
    (g : FamilyGenerator) :
    (g.filterAggregations suffix l).1.filterAggregations suffix l
      = g.filterAggregations suffix l := by
  have hname : (g.filterAggregations suffix l).1.Name = g.Name := by
    rw [filterAggregations_eq]
  have hkept : ((g.filterAggregations suffix l).1).kept suffix l = g.kept suffix l := by
    unfold FamilyGenerator.kept
    rw [attached_after_filterAggregations]
    unfold FamilyGenerator.kept
    simp only [FamilyGenerator.derivedName, hname, List.filter_filter, Bool.and_self]
  have hflag : (g.filterAggregations suffix l).1.AggregationsOnly
      = (l.IsExcluded g.Name || g.AggregationsOnly) := by
    rw [filterAggregations_eq]
  rw [filterAggregations_eq suffix l (g.filterAggregations suffix l).1, hkept, hname, hflag]
  rw [filterAggregations_eq suffix l g]
  cases l.IsExcluded g.Name <;> simp

/-- The structs `FilterMetricFamilies` returns refer to maps the given structs
referred to, in the same order. -/
theorem filter_loop_addresses (suffix : String → String) (l : whiteBlackLister)
    (rest : List FamilyGeneratorRef) (maps : GoHeap (List (String × Aggregation)))
    (acc : List FamilyGeneratorRef) :
    ∃ kept : List FamilyGeneratorRef,
      (rest.foldl
        (fun state f =>
          let r := f.filterAggregations suffix l state.1
          if r.2.2 then (r.1, state.2 ++ [r.2.1]) else (r.1, state.2))
        (maps, acc)).2 = acc ++ kept ∧
      (kept.filterMap (fun g => g.AggregateBy)).Sublist
        (rest.filterMap (fun g => g.AggregateBy)) := by
  induction rest generalizing maps acc with
  | nil => exact ⟨[], by simp, by simp⟩
  | cons g rest ih =>
    simp only [List.foldl_cons]
    cases hb : (g.filterAggregations suffix l maps).2.2
    · obtain ⟨kept, h1, h2⟩ := ih (g.filterAggregations suffix l maps).1 acc
      refine ⟨kept, by simpa using h1, ?_⟩
      rw [List.filterMap_cons]
      split
      · exact h2
      · exact List.Sublist.cons _ h2
    · obtain ⟨kept, h1, h2⟩ := ih (g.filterAggregations suffix l maps).1
        (acc ++ [(g.filterAggregations suffix l maps).2.1])
      refine ⟨(g.filterAggregations suffix l maps).2.1 :: kept, by simpa using h1, ?_⟩
      cases ha : (g.filterAggregations suffix l maps).2.1.AggregateBy with
      | none =>
        rw [List.filterMap_cons_none ha, List.filterMap_cons]
        split
        · exact h2
        · exact List.Sublist.cons _ h2
      | some a =>
        have hg := filterAggregations_ref_address suffix l maps g a ha
        rw [List.filterMap_cons_some ha, List.filterMap_cons_some hg]
        exact List.Sublist.cons₂ _ h2

/-- When no two generators share a map object and every flag starts false,
`FilterMetricFamilies` returns what C6 describes: read through the map objects
after the call, the result is the list of the surviving generators, in order,
each as `filterAggregations` leaves it. -/
theorem FilterMetricFamilies_unshared_survivors (suffix : String → String)
    (l : whiteBlackLister) (maps : GoHeap (List (String × Aggregation)))
    (families : List FamilyGeneratorRef)
    (hown : (families.filterMap (fun g => g.AggregateBy)).Nodup)
    (hflag : ∀ g ∈ families, g.AggregationsOnly = false) :
    (FilterMetricFamilies suffix l maps families).2.map
        (FamilyGeneratorRef.deref (FilterMetricFamilies suffix l maps families).1)
      = ((families.map (FamilyGeneratorRef.deref maps)).filter
            (fun v => v.survives suffix l)).map
          (fun v => (v.filterAggregations suffix l).1) := by
  rw [FilterMetricFamilies_unshared suffix l maps families hown]
  congr 1
  apply List.filter_congr
  intro v hv
  obtain ⟨g, hg, rfl⟩ := List.mem_map.mp hv
  exact survives_eq suffix l _ (hflag g hg)

/-- When no two generators share a map object, `FilterMetricFamilies` is
idempotent: filtering the result again, on the map objects as the first pass
left them, returns structs that show the same contents. -/
theorem FilterMetricFamilies_unshared_idempotent (suffix : String → String)
    (l : whiteBlackLister) (maps : GoHeap (List (String × Aggregation)))
    (families : List FamilyGeneratorRef)
    (hown : (families.filterMap (fun g => g.AggregateBy)).Nodup) :
    (FilterMetricFamilies suffix l (FilterMetricFamilies suffix l maps families).1
        (FilterMetricFamilies suffix l maps families).2).2.map
      (FamilyGeneratorRef.deref
        (FilterMetricFamilies suffix l (FilterMetricFamilies suffix l maps families).1
          (FilterMetricFamilies suffix l maps families).2).1)
      = (FilterMetricFamilies suffix l maps families).2.map
          (FamilyGeneratorRef.deref (FilterMetricFamilies suffix l maps families).1) := by
  obtain ⟨kept, h1, h2⟩ := filter_loop_addresses suffix l families maps []
  have hown2 : ((FilterMetricFamilies suffix l maps families).2.filterMap
      (fun g => g.AggregateBy)).Nodup := by
    have : (FilterMetricFamilies suffix l maps families).2 = kept := by
      simpa [FilterMetricFamilies] using h1
    rw [this]
    exact h2.nodup hown
  rw [FilterMetricFamilies_unshared suffix l _ _ hown2,
    FilterMetricFamilies_unshared suffix l maps families hown]
  have hfilter :
      (((families.map (FamilyGeneratorRef.deref maps)).filter
          (fun v => (v.filterAggregations suffix l).2)).map
          (fun v => (v.filterAggregations suffix l).1)).filter
        (fun v => (v.filterAggregations suffix l).2)
      = ((families.map (FamilyGeneratorRef.deref maps)).filter
          (fun v => (v.filterAggregations suffix l).2)).map
          (fun v => (v.filterAggregations suffix l).1) := by
    apply List.filter_eq_self.mpr
    intro v1 hv1
    obtain ⟨v, hv, rfl⟩ := List.mem_map.mp hv1
    rw [filterAggregations_idem]
    exact (List.mem_filter.mp hv).2
  rw [hfilter, List.map_map]
  apply List.map_congr_left
  intro v _
  simp [filterAggregations_idem]

/-- C6 on generators that share a map object: `x` and `y` refer to one map with the
aggregation `type`; the policy excludes `x_by_type` and `y`. `y` starts with
`AggregationsOnly = false` and its derived name `y_by_type` is not excluded, yet
`FilterMetricFamilies` returns `x` alone: filtering `x` has deleted `type` from
the map `y` refers to. -/
theorem FilterMetricFamilies_shared_map_drops_survivor :
    ((FilterMetricFamilies exampleSuffix sharingPolicy sharedMaps
        [generatorX, generatorY]).2.map (fun g => g.Name)) = ["x"] ∧
    generatorY.AggregationsOnly = false ∧
    generatorY.AggregateBy = some 0 ∧ (sharedMaps 0).map (fun e => e.1) = ["type"] ∧
    sharingPolicy.IsExcluded (generatorY.Name ++ exampleSuffix "type") = false := by
  decide

/-- C7 on generators that share a map object: the raw name of `y` is excluded and
its one attached aggregation `type` has a derived name that is not excluded,
yet no generator named `y` is in the list `FilterMetricFamilies` returns for
`[x, y]`: filtering `x` has emptied the map `y` refers to. -/
theorem FilterMetricFamilies_shared_map_loses_aggregation :
    generatorY.AggregationsOnly = false ∧
    sharingPolicy.IsExcluded generatorY.Name = true ∧
    ((generatorY.deref sharedMaps).attached.map (fun e => e.1)) = ["type"] ∧
    sharingPolicy.IsExcluded (generatorY.Name ++ exampleSuffix "type") = false ∧
    ∀ g ∈ (FilterMetricFamilies exampleSuffix sharingPolicy sharedMaps
        [generatorX, generatorY]).2, g.Name ≠ "y" := by
  decide

/-- C20 on generators that share a map object: on `[y, x]` the first pass returns
`y` and `x`; filtering that result again, with the map objects as the first
pass left them, returns `x` alone. -/
theorem FilterMetricFamilies_shared_map_not_idempotent :
    ((FilterMetricFamilies exampleSuffix sharingPolicy sharedMaps
        [generatorY, generatorX]).2.map (fun g => g.Name)) = ["y", "x"] ∧
    ((FilterMetricFamilies exampleSuffix sharingPolicy
        (FilterMetricFamilies exampleSuffix sharingPolicy sharedMaps [generatorY, generatorX]).1
        (FilterMetricFamilies exampleSuffix sharingPolicy sharedMaps [generatorY, generatorX]).2).2.map
      (fun g => g.Name)) = ["x"] := by
  decide
end KubeStateMetrics
